import Mathlib

/-!
Verification development for the job-control core of a small interactive
shell (sources: `jobs.c`, `shell.c`).  The C data structures and functions
are embedded shallowly: the global registry (`jobs`, `njobmax`) together
with the terminal bookkeeping becomes an explicit `ShellState`; the
asynchronous SIGCHLD handler becomes a pure state-update function applied
to an explicit list of reaped child events; blocking `sigsuspend` waits
consume an explicit list of suspension events (each one run of the
handler, plus any terminal-mode change made by the children meanwhile).
Fallible operations return `Option`; exhausting the event list while a
wait loop is still blocked yields `none` (the call did not complete).
-/

namespace Shell

/-- Modelled from the spec: the state constants `RUNNING`, `STOPPED`,
`FINISHED` and the slot constants `FG = 0`, `BG = 1` live in `shell.h`,
which is not part of the given sources.  Per spec §3, slot 0 is the
reserved foreground slot and background slots start at index 1.  The
zero value of the state enumeration is taken to be `FINISHED`, so that a
zero-initialized or cleared slot (calloc/memset in the C code) reads as
Finished; this is the only choice consistent with `shutdownjobs` and the
default-job scan in `resumejob`, both of which must skip free slots. -/
inductive PState where
  | FINISHED
  | RUNNING
  | STOPPED
deriving DecidableEq, Repr

/-- Signals sent by job commands (`kill(-pgid, sig)` in the C code). -/
inductive Sig where
  | SIGTERM
  | SIGCONT
deriving DecidableEq, Repr

/-- User-visible messages emitted through `msg(...)`. -/
inductive Output where
  | noJobCtl
  | cont (j : Nat) (cmd : String)
  | susp (j : Nat) (cmd : String)
deriving DecidableEq, Repr

/-- Observable side effects of the job commands: a message, or a signal
delivered to a whole process group (`kill(-pgid, sig)`). -/
inductive Eff where
  | msg (o : Output)
  | kill (pgid : Nat) (sig : Sig)
deriving DecidableEq, Repr

/-- One reaped child state change, as classified by the `WIFSTOPPED` /
`WIFEXITED` / `WIFSIGNALED` / `WIFCONTINUED` macros on the raw wait
status.  The raw status word is carried along, since the handler stores
it verbatim in `proc->exitcode`. -/
inductive ChildEvent where
  | stopped (status : Int)
  | exited (status : Int)
  | signaled (status : Int)
  | continued (status : Int)
deriving DecidableEq, Repr

/-- `proc_t`: per-child entry of a job. -/
structure Proc where
  pid : Nat
  state : PState
  exitcode : Int
deriving DecidableEq, Repr

/-- `job_t`: one slot of the registry.  `tmodes` stands for the opaque
`struct termios` value, modelled as a number. -/
structure Job where
  pgid : Nat
  proc : List Proc
  tmodes : Nat
  state : PState
  command : String
deriving DecidableEq, Repr

/-- The all-zero `proc_t` image (never observed by the C code on valid
indices; used as the `getD` default). -/
def zeroProc : Proc := { pid := 0, state := PState.FINISHED, exitcode := 0 }

/-- The all-zero `job_t` image produced by `calloc`/`memset`: free slot
(`pgid = 0`), no processes, zero terminal modes, zero state (which reads
as `FINISHED`, see `PState`). -/
def zeroJob : Job :=
  { pgid := 0, proc := [], tmodes := 0, state := PState.FINISHED, command := "" }

/-- The shell-global state: the `jobs` array (its length is `njobmax`),
the terminal's foreground process group and current mode (accessed via
`Tcsetpgrp`/`Tcgetpgrp` and `Tcsetattr`/`Tcgetattr` on `tty_fd`), the
saved `shell_tmodes`, and the shell's own process group (`getpgrp()`). -/
structure ShellState where
  jobs : List Job
  ttyFg : Nat
  ttyMode : Nat
  shellTmodes : Nat
  shellPgrp : Nat
deriving DecidableEq, Repr

/-- One `sigsuspend` window: the child state changes reaped by the one
handler run that wakes the shell, plus the terminal mode the (foreground)
children may have set meanwhile (`none` = unchanged). -/
structure SuspendEvent where
  reaps : List (Nat × ChildEvent)
  tmode : Option Nat
deriving DecidableEq, Repr

/-! ## Reaper (`sigchld_handler`, jobs.c lines 23-97) -/

/-- The bit contributed by one process state to the aggregate mask
(`mask | 1` for FINISHED, `| 2` for STOPPED, `| 4` for RUNNING). -/
def stateBit : PState → Nat
  | PState.FINISHED => 1
  | PState.STOPPED => 2
  | PState.RUNNING => 4

/-- The mask accumulated over all processes of a job
(jobs.c lines 60-77). -/
def jobMask (ps : List Proc) : Nat :=
  ps.foldl (fun m p => m ||| stateBit p.state) 0

/-- The aggregate-state switch on the mask (jobs.c lines 78-94):
`1 → FINISHED`, `2 → STOPPED`, `4 → RUNNING`, anything else leaves the
job state unchanged. -/
def recomputeState (job : Job) : Job :=
  match jobMask job.proc with
  | 1 => { job with state := PState.FINISHED }
  | 2 => { job with state := PState.STOPPED }
  | 4 => { job with state := PState.RUNNING }
  | _ => job

/-- Per-process update for one reaped status (jobs.c lines 44-56).  Both
the exited and the signaled case set `FINISHED`; all four store the raw
status. -/
def applyEvent (ev : ChildEvent) (p : Proc) : Proc :=
  match ev with
  | ChildEvent.stopped s => { p with state := PState.STOPPED, exitcode := s }
  | ChildEvent.exited s => { p with state := PState.FINISHED, exitcode := s }
  | ChildEvent.signaled s => { p with state := PState.FINISHED, exitcode := s }
  | ChildEvent.continued s => { p with state := PState.RUNNING, exitcode := s }

/-- Scan of one job's process array for a pid (inner loop, jobs.c
lines 37-58); returns the process index. -/
def findProcInAux : List Proc → Nat → Nat → Option Nat
  | [], _, _ => none
  | p :: rest, pid, k =>
    if p.pid = pid then some k else findProcInAux rest pid (k + 1)

/-- Scan of all jobs for a pid (outer loop, jobs.c lines 33-59); returns
the first matching (job index, process index), exactly like the `done`
flag makes the C loops stop at the first hit. -/
def findPidAux : List Job → Nat → Nat → Option (Nat × Nat)
  | [], _, _ => none
  | job :: rest, pid, i =>
    match findProcInAux job.proc pid 0 with
    | some k => some (i, k)
    | none => findPidAux rest pid (i + 1)

/-- One iteration of the handler's `waitpid` loop: update the matched
process (if any), then recompute the aggregate state of job `numbJob` —
which the C code leaves at its initial value 0 when no process
matched. -/
def reapOne (st : ShellState) (pid : Nat) (ev : ChildEvent) : ShellState :=
  let found := findPidAux st.jobs pid 0
  let numbJob := match found with
    | some ik => ik.1
    | none => 0
  let jobs1 := match found with
    | some ik =>
      let job := st.jobs.getD ik.1 zeroJob
      st.jobs.set ik.1
        { job with proc := job.proc.set ik.2 (applyEvent ev (job.proc.getD ik.2 zeroProc)) }
    | none => st.jobs
  { st with jobs := jobs1.set numbJob (recomputeState (jobs1.getD numbJob zeroJob)) }

/-- The whole handler run: process every pending child state change. -/
def sigchld_handler (st : ShellState) (reaps : List (Nat × ChildEvent)) : ShellState :=
  reaps.foldl (fun s pe => reapOne s pe.1 pe.2) st

/-! ## Registry operations (jobs.c lines 100-171) -/

/-- `exitcode` (jobs.c lines 100-102): the raw status of the job's last
process, `proc[nproc - 1].exitcode`. -/
def exitcode (job : Job) : Int :=
  (job.proc.getD (job.proc.length - 1) zeroProc).exitcode

/-- Linear scan for a free background slot, carrying the index. -/
def findFreeAux : List Job → Nat → Option Nat
  | [], _ => none
  | job :: rest, k => if job.pgid = 0 then some k else findFreeAux rest (k + 1)

/-- The scan of `allocjob` (jobs.c lines 106-108): background slots only,
starting at `BG = 1`. -/
def findFree (jobs : List Job) : Option Nat :=
  findFreeAux (jobs.drop 1) 1

/-- `allocjob` (jobs.c lines 104-114): first free background slot, else
append a fresh zeroed slot (realloc + memset) and return its index. -/
def allocjob (jobs : List Job) : Nat × List Job :=
  match findFree jobs with
  | some j => (j, jobs)
  | none => (jobs.length, jobs ++ [zeroJob])

/-- `addjob` (jobs.c lines 122-133): pick the slot (`FG = 0` for a
foreground job, else `allocjob`) and initialize it running and empty,
with the shell's saved terminal modes. -/
def addjob (st : ShellState) (pgid : Nat) (bg : Bool) : Nat × ShellState :=
  let a := if bg then allocjob st.jobs else (0, st.jobs)
  let fresh : Job := { pgid := pgid, proc := [], tmodes := st.shellTmodes,
                       state := PState.RUNNING, command := "" }
  (a.1, { st with jobs := a.2.set a.1 fresh })

/-- `mkcommand` (jobs.c lines 151-159): append one stage's argv to the
job's command text, with a pipe separator once the text is non-empty. -/
def mkcommand (cmd : String) (argv : List String) : String :=
  let pre := if cmd = "" then "" else cmd ++ " | "
  pre ++ String.intercalate " " argv

/-- The fresh `proc_t` written by `addproc` (jobs.c lines 166-169). -/
def mkProc (pid : Nat) : Proc :=
  { pid := pid, state := PState.RUNNING, exitcode := -1 }

/-- `addproc` (jobs.c lines 161-171): append a running process entry to
job `j` (asserts `j < njobmax`) and extend the command text. -/
def addproc (st : ShellState) (j : Nat) (pid : Nat) (argv : List String) : ShellState :=
  let job := st.jobs.getD j zeroJob
  let job2 := { job with proc := job.proc ++ [mkProc pid],
                         command := mkcommand job.command argv }
  { st with jobs := st.jobs.set j job2 }

/-- `movejob` (jobs.c lines 145-149): copy slot `src` over slot `dst`
(asserted free) and zero slot `src`. -/
def movejob (st : ShellState) (src dst : Nat) : ShellState :=
  { st with jobs := (st.jobs.set dst (st.jobs.getD src zeroJob)).set src zeroJob }

/-- `jobcmd` (jobs.c lines 189-193). -/
def jobcmd (st : ShellState) (j : Nat) : String :=
  (st.jobs.getD j zeroJob).command

/-- `deljob` (jobs.c lines 135-143), as the slot image it leaves: free
the command and process storage and clear `pgid`; `tmodes` and `state`
are left as they are (the function asserts the state is `FINISHED`). -/
def deljob (job : Job) : Job :=
  { job with pgid := 0, command := "", proc := [] }

/-- `jobstate` (jobs.c lines 175-187): return the aggregate state; when
it is `FINISHED`, also write the captured exit code through the out
parameter (second component, `none` = not written) and delete the job
(`deljob`). -/
def jobstate (st : ShellState) (j : Nat) : PState × Option Int × ShellState :=
  if (st.jobs.getD j zeroJob).state = PState.FINISHED then
    ((st.jobs.getD j zeroJob).state, some (exitcode (st.jobs.getD j zeroJob)),
      { st with jobs := st.jobs.set j (deljob (st.jobs.getD j zeroJob)) })
  else
    ((st.jobs.getD j zeroJob).state, none, st)

/-! ## Job commands (jobs.c lines 197-243) -/

/-- `killjob` (jobs.c lines 233-243): reject an out-of-range or finished
job; otherwise send `SIGTERM` to the whole process group, then `SIGCONT`
if the job is stopped.  The effect list records the group-directed
signals in the order they are sent. -/
def killjob (st : ShellState) (j : Nat) : Bool × List Eff :=
  if st.jobs.length ≤ j ∨ (st.jobs.getD j zeroJob).state = PState.FINISHED then
    (false, [])
  else
    let pgid := (st.jobs.getD j zeroJob).pgid
    (true,
      Eff.kill pgid Sig.SIGTERM ::
        (if (st.jobs.getD j zeroJob).state = PState.STOPPED then
          [Eff.kill pgid Sig.SIGCONT]
        else []))

/-- The default-job scan of `resumejob` (jobs.c lines 198-201): starting
at `njobmax - 1`, walk down while the slot's state is `FINISHED` and the
index is still positive. -/
def selGo (jobs : List Job) : Nat → Nat
  | 0 => 0
  | j + 1 =>
    if (jobs.getD (j + 1) zeroJob).state = PState.FINISHED then selGo jobs j
    else j + 1

/-- The job index `resumejob` uses when no job is named. -/
def resumeSelect (st : ShellState) : Nat :=
  selGo st.jobs (st.jobs.length - 1)

/-! ## Waiting (`sigsuspend`) and the foreground monitor
(jobs.c lines 280-299) -/

/-- Effect of one `sigsuspend` window: the pending child changes are
reaped by the handler, and the children may have changed the terminal
mode meanwhile. -/
def applySuspend (st : ShellState) (e : SuspendEvent) : ShellState :=
  let st1 := sigchld_handler st e.reaps
  { st1 with ttyMode := e.tmode.getD st1.ttyMode }

/-- The monitor's wait loop (jobs.c lines 285-287):
`while ((state = jobstate(0, &exitcode)) == RUNNING) sigsuspend(mask);`.
Returns the first non-running state observed, the exit code written by
`jobstate` (initialized 0), and the state at that point; `none` when the
event list is exhausted while the job is still running (the call does
not complete). -/
def monitorLoop : List SuspendEvent → ShellState → Option (PState × Int × ShellState)
  | evs, st =>
    if (jobstate st 0).1 = PState.RUNNING then
      match evs with
      | [] => none
      | e :: es => monitorLoop es (applySuspend (jobstate st 0).2.2 e)
    else
      some ((jobstate st 0).1, ((jobstate st 0).2.1).getD 0, (jobstate st 0).2.2)

/-- Entry of `monitorjob` (jobs.c line 284): hand the terminal to the
foreground job's process group. -/
def monitorEntry (st : ShellState) : ShellState :=
  { st with ttyFg := (st.jobs.getD 0 zeroJob).pgid }

/-- The foreground job record with the terminal's current mode captured
into it (`Tcgetattr(tty_fd, &jobs[0].tmodes)`, jobs.c line 289). -/
def capJob (st1 : ShellState) : Job :=
  { st1.jobs.getD 0 zeroJob with tmodes := st1.ttyMode }

/-- The background slot `allocjob` picks for a stopped foreground job
(jobs.c line 290). -/
def stopSlot (st1 : ShellState) : Nat :=
  (allocjob (st1.jobs.set 0 (capJob st1))).1

/-- The stopped-job path of `monitorjob` (jobs.c lines 288-293): capture
the terminal's current mode into the job record (`Tcgetattr` into
`jobs[0].tmodes`), allocate a background slot, relocate the job there
(`movejob(0, to)`), and emit the suspended notice. -/
def stopRelocate (st1 : ShellState) : ShellState × List Eff :=
  let st1a := { st1 with jobs := st1.jobs.set 0 (capJob st1) }
  let a := allocjob st1a.jobs
  let st1b := movejob { st1a with jobs := a.2 } 0 a.1
  (st1b, [Eff.msg (Output.susp a.1 (jobcmd st1b a.1))])

/-- The post-wait processing of `monitorjob` (jobs.c lines 288-298):
the stopped-job relocation when the state is `STOPPED`, then — the loop
guarantees the state is no longer `RUNNING` — restore the shell's saved
terminal modes and make the shell's own process group the terminal's
foreground group again. -/
def monitorFinish (s : PState) (ec : Int) (st1 : ShellState) : Int × ShellState × List Eff :=
  let step := if s = PState.STOPPED then stopRelocate st1 else (st1, [])
  if s ≠ PState.RUNNING then
    (ec, { step.1 with ttyMode := step.1.shellTmodes, ttyFg := step.1.shellPgrp }, step.2)
  else
    (ec, step.1, step.2)

/-- `monitorjob` (jobs.c lines 280-299): hand the terminal to the
foreground job, wait until it is no longer running, then finish. -/
def monitorjob (st : ShellState) (evs : List SuspendEvent) : Option (Int × ShellState × List Eff) :=
  match monitorLoop evs (monitorEntry st) with
  | none => none
  | some r => some (monitorFinish r.1 r.2.1 r.2.2)

/-! ## Resume (jobs.c lines 197-230) -/

/-- The wait after continuing a stopped foreground job (jobs.c lines
215-220): `while (jobs[0].state == STOPPED) sigsuspend(mask);` — returns
the state once no longer stopped together with the unconsumed events. -/
def resumeWait : List SuspendEvent → ShellState → Option (ShellState × List SuspendEvent)
  | evs, st =>
    if (st.jobs.getD 0 zeroJob).state = PState.STOPPED then
      match evs with
      | [] => none
      | e :: es => resumeWait es (applySuspend st e)
    else
      some (st, evs)

/-- The job index `resumejob` acts on: a negative argument selects the
default job via the downward scan. -/
def resumeIdx (st : ShellState) (jArg : Int) : Nat :=
  if jArg < 0 then resumeSelect st else jArg.toNat

/-- The foreground branch of `resumejob` (jobs.c lines 211-222): move
the job into slot 0, hand it the terminal together with its saved
modes, send `SIGCONT` to its group and wait while it is still stopped,
emit the continue notice, then monitor it.  `resumejob` discards the
monitor's exit code. -/
def resumeFg (st : ShellState) (j : Nat) (evs : List SuspendEvent) :
    Option (Bool × ShellState × List Eff) :=
  let st1 := movejob st j 0
  let st2 := { st1 with ttyFg := (st1.jobs.getD 0 zeroJob).pgid,
                        ttyMode := (st1.jobs.getD 0 zeroJob).tmodes }
  let contEffs :=
    if (st2.jobs.getD 0 zeroJob).state = PState.STOPPED then
      [Eff.kill (st2.jobs.getD 0 zeroJob).pgid Sig.SIGCONT]
    else []
  match resumeWait evs st2 with
  | none => none
  | some we =>
    match monitorjob we.1 we.2 with
    | none => none
    | some m => some (true, m.2.1, contEffs ++ Eff.msg (Output.cont j (jobcmd we.1 0)) :: m.2.2)

/-- `resumejob` (jobs.c lines 197-230).  Out-of-range or finished
selections fail silently (no message, lines 203-204); then the
no-job-control guard (`Tcgetpgrp(tty_fd) != getpgrp() || jobs[0].pgid
!= 0`, lines 207-210) fails with the message; foreground resume follows
`resumeFg`; background resume just continues a stopped job with a
notice. -/
def resumejob (st : ShellState) (jArg : Int) (bg : Bool) (evs : List SuspendEvent) :
    Option (Bool × ShellState × List Eff) :=
  if st.jobs.length ≤ resumeIdx st jArg ∨
      (st.jobs.getD (resumeIdx st jArg) zeroJob).state = PState.FINISHED then
    some (false, st, [])
  else if st.ttyFg ≠ st.shellPgrp ∨ (st.jobs.getD 0 zeroJob).pgid ≠ 0 then
    some (false, st, [Eff.msg Output.noJobCtl])
  else if bg = false then
    resumeFg st (resumeIdx st jArg) evs
  else
    if (st.jobs.getD (resumeIdx st jArg) zeroJob).state = PState.STOPPED then
      some (true, st,
        [Eff.kill (st.jobs.getD (resumeIdx st jArg) zeroJob).pgid Sig.SIGCONT,
         Eff.msg (Output.cont (resumeIdx st jArg) (st.jobs.getD (resumeIdx st jArg) zeroJob).command)])
    else
      some (true, st, [])

/-! ## Tokens and redirection (`do_redir`, shell.c lines 26-53) -/

/-- The token values the core distinguishes (spec §6): words and the
marker tokens.  `T_NULL` is the null replacement `do_redir` writes over
consumed tokens. -/
inductive Token where
  | word (s : String)
  | T_INPUT
  | T_OUTPUT
  | T_PIPE
  | T_BGJOB
  | T_NULL
deriving DecidableEq, Repr

/-- Whether a token is a redirection operator. -/
def isRedir : Token → Bool
  | Token.T_INPUT => true
  | Token.T_OUTPUT => true
  | _ => false

/-- The word carried by a token (the C `token_t` is a string pointer;
marker tokens are sentinel pointers that never reach this far on
well-formed input). -/
def tokStr : Token → String
  | Token.word s => s
  | _ => ""

/-- The open flags of the two redirection cases.  Input files are opened
`O_RDONLY`; output files `O_WRONLY | O_CREAT` — note: neither `O_TRUNC`
nor `O_APPEND` is included (shell.c lines 43-44). -/
structure OFlags where
  wronly : Bool
  creat : Bool
  trunc : Bool
  append : Bool
deriving DecidableEq, Repr

/-- The flag set `O_WRONLY | O_CREAT` passed for output redirection. -/
def outFlags : OFlags := { wronly := true, creat := true, trunc := false, append := false }

/-- A recorded `Open` call: the target name (the token following the
operator, when it is a word) and, for output, the flags and the
permission bits. -/
inductive OpenAction where
  | inO (name : Option String)
  | outO (name : Option String) (flags : OFlags) (mode : Nat)
deriving DecidableEq, Repr

/-- The name argument `token[i + 1]` of an `Open` call. -/
def headName : List Token → Option String
  | Token.word s :: _ => some s
  | _ => none

/-- The loop of `do_redir` (shell.c lines 30-49), carrying the index
`i`, the survivor count `n` and the `mode` flag (whether a redirection
operator has been seen).  On `T_INPUT`/`T_OUTPUT`: freeze `n` at the
operator's index if this is the first one, record the `Open`; on any
other token: count it if no redirection has been seen yet, else it is
overwritten with `T_NULL` (i.e. dropped).  Returns the final `n` and the
recorded opens. -/
def redirAux : List Token → Nat → Nat → Bool → Nat × List OpenAction
  | [], _, n, _ => (n, [])
  | t :: rest, i, n, mode =>
    if t = Token.T_INPUT then
      let r := redirAux rest (i + 1) (if mode then n else i) true
      (r.1, OpenAction.inO (headName rest) :: r.2)
    else if t = Token.T_OUTPUT then
      let r := redirAux rest (i + 1) (if mode then n else i) true
      (r.1, OpenAction.outO (headName rest) outFlags 0o664 :: r.2)
    else if mode then
      redirAux rest (i + 1) n true
    else
      redirAux rest (i + 1) (n + 1) false

/-- Result of `do_redir`: the survivor count `n`, the surviving command
tokens (the C writes `token[n] = NULL`, so the consumer sees exactly the
first `n` tokens), and the `Open` calls made.  Descriptor bookkeeping
(`MaybeClose` on the previous descriptor) has no observable effect on
the registry or the file contents and is not represented. -/
structure RedirResult where
  n : Nat
  argv : List Token
  acts : List OpenAction
deriving DecidableEq, Repr

/-- `do_redir` (shell.c lines 26-53). -/
def do_redir (ts : List Token) : RedirResult :=
  let r := redirAux ts 0 0 false
  { n := r.1, argv := ts.take r.1, acts := r.2 }

/-! ## Pipeline builder (`do_stage` / `do_pipeline`, shell.c
lines 109-212).  The child-side descriptor plumbing (pipes, dup2) does
not touch the registry and is not represented; the spawned pid of stage
`k` is supplied by the oracle `spawn k`. -/

/-- `do_stage` (shell.c lines 109-141): resolve redirections; an empty
stage is a malformed command line (`app_error`, modelled as `none`);
otherwise the stage is spawned and its pid returned together with the
surviving argv (which the parent later hands to `addproc`). -/
def do_stage (spawn : Nat → Nat) (k : Nat) (ts : List Token) : Option (Nat × List Token) :=
  let r := do_redir ts
  if r.n = 0 then none else some (spawn k, r.argv)

/-- Index of the first `T_PIPE`, carrying the position. -/
def firstPipeAux : List Token → Nat → Option Nat
  | [], _ => none
  | t :: rest, i =>
    if t = Token.T_PIPE then some i else firstPipeAux rest (i + 1)

/-- Index of the first `T_PIPE` in a token sequence. -/
def firstPipe (ts : List Token) : Option Nat := firstPipeAux ts 0

/-- The stage length computed by the scan at the top of the
`while (true)` loop (shell.c lines 184-191): the first pipe's index, or
all remaining tokens when there is none.  When no tokens remain the C
loop body does not run and `length` keeps its previous value. -/
def loopLen (ts : List Token) (prevLen : Nat) : Nat :=
  match ts with
  | [] => prevLen
  | _ :: _ => (firstPipe ts).getD ts.length

/-- The `while (true)` loop of `do_pipeline` (shell.c lines 183-202):
spawn the next stage, register its process under job `j`, and continue
with the tokens after the consumed stage and its pipe separator while
any remain (`ntokens -= length + 1; if (ntokens > 0) ... else break`). -/
def pipeLoop (spawn : Nat → Nat) (k j : Nat) (st : ShellState) (ts : List Token)
    (prevLen : Nat) : Option ShellState :=
  match do_stage spawn k (ts.take (loopLen ts prevLen)) with
  | none => none
  | some pa =>
    let st2 := addproc st j pa.1 (pa.2.map tokStr)
    if h : loopLen ts prevLen + 1 < ts.length then
      pipeLoop spawn (k + 1) j st2 (ts.drop (loopLen ts prevLen + 1)) (loopLen ts prevLen)
    else
      some st2
termination_by ts.length
decreasing_by simp only [List.length_drop]; omega

/-- `do_pipeline` up to and including the spawn/register loop (shell.c
lines 154-202): the first stage runs up to the first pipe (the C scan
leaves `length = 0` if, impossibly for a pipeline, no pipe exists); its
pid becomes the job's process-group id; one job is registered and every
stage's process appended to it in spawn order.  The subsequent
monitoring / background message (lines 204-208) is `monitorjob` /
`watchjobs` territory and not part of the builder loop. -/
def do_pipeline (spawn : Nat → Nat) (st : ShellState) (ts : List Token) (bg : Bool) :
    Option (Nat × ShellState) :=
  match do_stage spawn 0 (ts.take ((firstPipe ts).getD 0)) with
  | none => none
  | some pa =>
    match pipeLoop spawn 1 (addjob st pa.1 bg).1
        (addproc (addjob st pa.1 bg).2 (addjob st pa.1 bg).1 pa.1 (pa.2.map tokStr))
        (ts.drop ((firstPipe ts).getD 0 + 1)) ((firstPipe ts).getD 0) with
    | none => none
    | some st3 => some ((addjob st pa.1 bg).1, st3)

/-- Join stage token lists with single `T_PIPE` separators: the token
shape of an `a | b | ...` command line. -/
def joinPipe : List (List Token) → List Token
  | [] => []
  | [s] => s
  | s :: rest => s ++ Token.T_PIPE :: joinPipe rest

/-! ## A minimal POSIX file model for the semantics of the output-open
flags (claim about non-truncation). -/

/-- Contents of a file right after an `Open` with the given flags:
a newly created file is empty; an existing file is truncated to empty
exactly when `O_TRUNC` is among the flags, otherwise its bytes are
kept. -/
def openContents (fl : OFlags) (existing : Option (List Nat)) : List Nat :=
  match existing with
  | none => []
  | some c => if fl.trunc then [] else c

/-- Writing a byte sequence at offset 0 over existing contents (the file
position of a freshly opened descriptor without `O_APPEND` is 0):
bytes beyond the written length are untouched. -/
def writeAt0 (w : List Nat) (c : List Nat) : List Nat :=
  w ++ c.drop w.length

/-! ## Concrete states used to instantiate the theorems -/

/-- A registry with one two-process foreground job whose second process
has already finished. -/
def reapSt : ShellState :=
  { jobs := [ { pgid := 5,
                proc := [mkProc 50, { pid := 51, state := PState.FINISHED, exitcode := 0 }],
                tmodes := 0, state := PState.RUNNING, command := "a | b" } ],
    ttyFg := 1, ttyMode := 7, shellTmodes := 7, shellPgrp := 1 }

/-- A registry with a finished two-process background job in slot 1. -/
def finSt : ShellState :=
  { jobs := [zeroJob,
             { pgid := 5,
               proc := [{ pid := 50, state := PState.FINISHED, exitcode := 0 },
                        { pid := 51, state := PState.FINISHED, exitcode := 1792 }],
               tmodes := 3, state := PState.FINISHED, command := "a | b" }],
    ttyFg := 1, ttyMode := 7, shellTmodes := 7, shellPgrp := 1 }

/-- A registry with a stopped one-process background job in slot 1. -/
def stopSt : ShellState :=
  { jobs := [zeroJob,
             { pgid := 5, proc := [{ pid := 50, state := PState.STOPPED, exitcode := 4991 }],
               tmodes := 0, state := PState.STOPPED, command := "cat" }],
    ttyFg := 1, ttyMode := 7, shellTmodes := 7, shellPgrp := 1 }

/-- A shell that does not own the terminal (`ttyFg ≠ shellPgrp`) and has
no background jobs. -/
def noCtlSt : ShellState :=
  { jobs := [zeroJob], ttyFg := 9, ttyMode := 7, shellTmodes := 7, shellPgrp := 1 }

/-- A shell that does not own the terminal but has a stopped background
job in slot 1. -/
def noCtl2St : ShellState :=
  { jobs := [zeroJob,
             { pgid := 5, proc := [{ pid := 50, state := PState.STOPPED, exitcode := 4991 }],
               tmodes := 0, state := PState.STOPPED, command := "cat" }],
    ttyFg := 9, ttyMode := 7, shellTmodes := 7, shellPgrp := 1 }

/-- The registry right after `initjobs` (one zeroed slot). -/
def seedSt : ShellState :=
  { jobs := [zeroJob], ttyFg := 1, ttyMode := 7, shellTmodes := 7, shellPgrp := 1 }

/-- Slot-reuse scenario: allocate job A (pgid 10) and job B (pgid 20);
A finishes and its slot is consumed by `jobstate`; job C (pgid 30) is
then allocated into the freed slot 1 — so C is the most recently
allocated job, while B sits in the higher slot 2. -/
def c6add1 : Nat × ShellState := addjob seedSt 10 true

def c6st1 : ShellState := addproc c6add1.2 c6add1.1 10 ["sleep", "9"]

def c6add2 : Nat × ShellState := addjob c6st1 20 true

def c6st2 : ShellState := addproc c6add2.2 c6add2.1 20 ["cat"]

def c6st3 : ShellState := sigchld_handler c6st2 [(10, ChildEvent.exited 0)]

def c6st4 : ShellState := (jobstate c6st3 1).2.2

def c6add3 : Nat × ShellState := addjob c6st4 30 true

def c6st5 : ShellState := addproc c6add3.2 c6add3.1 30 ["top"]

/-- A running one-process foreground job monitored while the terminal's
mode (5) differs from the shell's saved mode (7) — the pre-state of the
monitor on the resume path, which first restores the job's own saved
modes. -/
def preModeSt : ShellState :=
  { jobs := [ { pgid := 10, proc := [mkProc 100], tmodes := 5,
                state := PState.RUNNING, command := "vi" } ],
    ttyFg := 1, ttyMode := 5, shellTmodes := 7, shellPgrp := 1 }

/-- A running one-process foreground job about to be stopped while the
children have left the terminal mode at 9. -/
def c8St : ShellState :=
  { jobs := [ { pgid := 5, proc := [mkProc 50], tmodes := 0,
                state := PState.RUNNING, command := "cat" } ],
    ttyFg := 1, ttyMode := 9, shellTmodes := 7, shellPgrp := 1 }

/-- The suspension event that stops `c8St`'s foreground job. -/
def c8Ev : SuspendEvent := { reaps := [(50, ChildEvent.stopped 4991)], tmode := none }

/-- The state at which the monitor's wait loop observes the stop. -/
def c8Mid : ShellState := applySuspend (monitorEntry c8St) c8Ev

/-- A running one-process foreground job whose terminal mode matches the
shell's saved mode. -/
def c3St : ShellState :=
  { jobs := [ { pgid := 5, proc := [mkProc 60], tmodes := 0,
                state := PState.RUNNING, command := "ls" } ],
    ttyFg := 1, ttyMode := 7, shellTmodes := 7, shellPgrp := 1 }

/-- The suspension event that finishes `c3St`'s foreground job. -/
def c3Ev : SuspendEvent := { reaps := [(60, ChildEvent.exited 0)], tmode := none }

/-- The state a completed monitor call on `c3St` returns. -/
def c3Res : ShellState :=
  { jobs := [{ pgid := 0, proc := [], tmodes := 0, state := PState.FINISHED, command := "" }],
    ttyFg := 1, ttyMode := 7, shellTmodes := 7, shellPgrp := 1 }

/-- A fresh registry for launching a three-stage pipeline. -/
def c2St : ShellState :=
  { jobs := [zeroJob], ttyFg := 1, ttyMode := 7, shellTmodes := 7, shellPgrp := 1 }

/-! ## General list lemmas -/

theorem getD_set_self {α : Type} (l : List α) (i : Nat) (a d : α) (h : i < l.length) :
    (l.set i a).getD i d = a := by
  simp [List.getD_eq_getElem?_getD, List.getElem?_set_self', h]

theorem getD_set_ne {α : Type} (l : List α) (i j : Nat) (a d : α) (h : i ≠ j) :
    (l.set i a).getD j d = l.getD j d := by
  simp [List.getD_eq_getElem?_getD, List.getElem?_set_ne h]

/-! ## Mask characterization (reaper) -/

theorem jobMask_go (ps : List Proc) (m : Nat) :
    ps.foldl (fun a p => a ||| stateBit p.state) m = m ||| jobMask ps := by
  induction ps generalizing m with
  | nil => simp [jobMask]
  | cons p rest ih =>
    simp only [jobMask, List.foldl_cons] at *
    rw [ih (m ||| stateBit p.state), ih (0 ||| stateBit p.state)]
    simp [Nat.lor_assoc]

theorem jobMask_cons (p : Proc) (ps : List Proc) :
    jobMask (p :: ps) = stateBit p.state ||| jobMask ps := by
  have h : jobMask (p :: ps) = (0 ||| stateBit p.state) ||| jobMask ps :=
    jobMask_go ps (0 ||| stateBit p.state)
  rw [h]
  simp

theorem jobMask_eq (ps : List Proc) :
    jobMask ps =
      (if ∃ p ∈ ps, p.state = PState.FINISHED then 1 else 0) |||
      (if ∃ p ∈ ps, p.state = PState.STOPPED then 2 else 0) |||
      (if ∃ p ∈ ps, p.state = PState.RUNNING then 4 else 0) := by
  induction ps with
  | nil => simp [jobMask]
  | cons p rest ih =>
    rw [jobMask_cons, ih]
    by_cases hF : ∃ q ∈ rest, q.state = PState.FINISHED <;>
      by_cases hS : ∃ q ∈ rest, q.state = PState.STOPPED <;>
        by_cases hR : ∃ q ∈ rest, q.state = PState.RUNNING <;>
          cases hp : p.state <;>
            simp [stateBit, hF, hS, hR, hp, List.exists_mem_cons_iff]

theorem recomputeState_proc (job : Job) : (recomputeState job).proc = job.proc := by
  unfold recomputeState
  split <;> rfl

theorem recomputeState_all (job : Job) (s : PState) (hne : job.proc ≠ [])
    (ha : ∀ p ∈ job.proc, p.state = s) : (recomputeState job).state = s := by
  obtain ⟨q, hq⟩ := List.exists_mem_of_ne_nil job.proc hne
  have hqs := ha q hq
  have hex : ∀ t : PState, t ≠ s → ¬ ∃ p ∈ job.proc, p.state = t := by
    rintro t ht ⟨p, hp, hps⟩
    exact ht (hps ▸ ha p hp)
  have hmask := jobMask_eq job.proc
  cases s with
  | FINISHED =>
    rw [if_pos ⟨q, hq, hqs⟩, if_neg (hex PState.STOPPED (by simp)),
        if_neg (hex PState.RUNNING (by simp))] at hmask
    have h1 : jobMask job.proc = 1 := by rw [hmask]; decide
    unfold recomputeState
    rw [h1]
  | STOPPED =>
    rw [if_neg (hex PState.FINISHED (by simp)), if_pos ⟨q, hq, hqs⟩,
        if_neg (hex PState.RUNNING (by simp))] at hmask
    have h2 : jobMask job.proc = 2 := by rw [hmask]; decide
    unfold recomputeState
    rw [h2]
  | RUNNING =>
    rw [if_neg (hex PState.FINISHED (by simp)), if_neg (hex PState.STOPPED (by simp)),
        if_pos ⟨q, hq, hqs⟩] at hmask
    have h4 : jobMask job.proc = 4 := by rw [hmask]; decide
    unfold recomputeState
    rw [h4]

theorem recomputeState_mixed (job : Job) (hne : job.proc ≠ [])
    (hF : ¬ ∀ p ∈ job.proc, p.state = PState.FINISHED)
    (hS : ¬ ∀ p ∈ job.proc, p.state = PState.STOPPED)
    (hR : ¬ ∀ p ∈ job.proc, p.state = PState.RUNNING) :
    (recomputeState job).state = job.state := by
  have hmask := jobMask_eq job.proc
  by_cases eF : ∃ p ∈ job.proc, p.state = PState.FINISHED
  · by_cases eS : ∃ p ∈ job.proc, p.state = PState.STOPPED
    · by_cases eR : ∃ p ∈ job.proc, p.state = PState.RUNNING
      · rw [if_pos eF, if_pos eS, if_pos eR] at hmask
        have h : jobMask job.proc = 7 := by rw [hmask]; decide
        unfold recomputeState
        rw [h]
      · rw [if_pos eF, if_pos eS, if_neg eR] at hmask
        have h : jobMask job.proc = 3 := by rw [hmask]; decide
        unfold recomputeState
        rw [h]
    · by_cases eR : ∃ p ∈ job.proc, p.state = PState.RUNNING
      · rw [if_pos eF, if_neg eS, if_pos eR] at hmask
        have h : jobMask job.proc = 5 := by rw [hmask]; decide
        unfold recomputeState
        rw [h]
      · -- only FINISHED occurs: then every process is FINISHED, contradiction
        exact absurd (fun p hp => by
          cases hps : p.state with
          | FINISHED => rfl
          | STOPPED => exact absurd ⟨p, hp, hps⟩ eS
          | RUNNING => exact absurd ⟨p, hp, hps⟩ eR) hF
  · by_cases eS : ∃ p ∈ job.proc, p.state = PState.STOPPED
    · by_cases eR : ∃ p ∈ job.proc, p.state = PState.RUNNING
      · rw [if_neg eF, if_pos eS, if_pos eR] at hmask
        have h : jobMask job.proc = 6 := by rw [hmask]; decide
        unfold recomputeState
        rw [h]
      · exact absurd (fun p hp => by
          cases hps : p.state with
          | STOPPED => rfl
          | FINISHED => exact absurd ⟨p, hp, hps⟩ eF
          | RUNNING => exact absurd ⟨p, hp, hps⟩ eR) hS
    · by_cases eR : ∃ p ∈ job.proc, p.state = PState.RUNNING
      · exact absurd (fun p hp => by
          cases hps : p.state with
          | RUNNING => rfl
          | FINISHED => exact absurd ⟨p, hp, hps⟩ eF
          | STOPPED => exact absurd ⟨p, hp, hps⟩ eS) hR
      · obtain ⟨q, hq⟩ := List.exists_mem_of_ne_nil job.proc hne
        cases hqs : q.state with
        | FINISHED => exact absurd ⟨q, hq, hqs⟩ eF
        | STOPPED => exact absurd ⟨q, hq, hqs⟩ eS
        | RUNNING => exact absurd ⟨q, hq, hqs⟩ eR

/-! ## Locating the reaped process -/

theorem findProcInAux_ne_nil (ps : List Proc) (pid b k : Nat)
    (h : findProcInAux ps pid b = some k) : ps ≠ [] := by
  cases ps with
  | nil => simp [findProcInAux] at h
  | cons p rest => simp

theorem findPidAux_spec (jobs : List Job) (pid : Nat) :
    ∀ (b i k : Nat), findPidAux jobs pid b = some (i, k) →
      b ≤ i ∧ i - b < jobs.length ∧
      findProcInAux (jobs.getD (i - b) zeroJob).proc pid 0 = some k := by
  induction jobs with
  | nil => intro b i k h; simp [findPidAux] at h
  | cons job rest ih =>
    intro b i k h
    unfold findPidAux at h
    cases hf : findProcInAux job.proc pid 0 with
    | some k0 =>
      rw [hf] at h
      injection h with h
      injection h with h1 h2
      subst h1; subst h2
      refine ⟨Nat.le_refl _, ?_, ?_⟩
      · simp
      · simp [hf]
    | none =>
      rw [hf] at h
      obtain ⟨hb, hlt, hfind⟩ := ih (b + 1) i k h
      refine ⟨Nat.le_of_succ_le hb, ?_, ?_⟩
      · simp only [List.length_cons]; omega
      · have : i - b = (i - (b + 1)) + 1 := by omega
        rw [this]
        simpa using hfind

/-- C1: after the Reaper (one `waitpid` iteration of `sigchld_handler`)
processes a child state-change notification for a process it locates in
job `i`, that job's aggregate state is recomputed by the mask rule: all
processes Finished → Finished, all Stopped → Stopped, all Running →
Running, and any other mix of distinct run-states leaves the previous
aggregate value unchanged. -/
theorem sigchld_recomputes_aggregate (st : ShellState) (pid : Nat) (ev : ChildEvent)
    (i k : Nat) (h : findPidAux st.jobs pid 0 = some (i, k)) :
    ((∀ p ∈ ((reapOne st pid ev).jobs.getD i zeroJob).proc, p.state = PState.FINISHED) →
      ((reapOne st pid ev).jobs.getD i zeroJob).state = PState.FINISHED) ∧
    ((∀ p ∈ ((reapOne st pid ev).jobs.getD i zeroJob).proc, p.state = PState.STOPPED) →
      ((reapOne st pid ev).jobs.getD i zeroJob).state = PState.STOPPED) ∧
    ((∀ p ∈ ((reapOne st pid ev).jobs.getD i zeroJob).proc, p.state = PState.RUNNING) →
      ((reapOne st pid ev).jobs.getD i zeroJob).state = PState.RUNNING) ∧
    ((¬ (∀ p ∈ ((reapOne st pid ev).jobs.getD i zeroJob).proc, p.state = PState.FINISHED)) →
     (¬ (∀ p ∈ ((reapOne st pid ev).jobs.getD i zeroJob).proc, p.state = PState.STOPPED)) →
     (¬ (∀ p ∈ ((reapOne st pid ev).jobs.getD i zeroJob).proc, p.state = PState.RUNNING)) →
      ((reapOne st pid ev).jobs.getD i zeroJob).state = (st.jobs.getD i zeroJob).state) := by
  obtain ⟨-, hlt, hfind⟩ := findPidAux_spec st.jobs pid 0 i k h
  rw [Nat.sub_zero] at hlt hfind
  have hne : (st.jobs.getD i zeroJob).proc ≠ [] := findProcInAux_ne_nil _ pid 0 k hfind
  have hre : (reapOne st pid ev).jobs.getD i zeroJob
      = recomputeState { st.jobs.getD i zeroJob with
          proc := (st.jobs.getD i zeroJob).proc.set k
            (applyEvent ev ((st.jobs.getD i zeroJob).proc.getD k zeroProc)) } := by
    simp only [reapOne, h]
    rw [getD_set_self _ _ _ _ (by simpa using hlt), getD_set_self _ _ _ _ hlt]
  have hlenp := List.length_set (st.jobs.getD i zeroJob).proc k
    (applyEvent ev ((st.jobs.getD i zeroJob).proc.getD k zeroProc))
  have hne2 : (st.jobs.getD i zeroJob).proc.set k
      (applyEvent ev ((st.jobs.getD i zeroJob).proc.getD k zeroProc)) ≠ [] := by
    intro hc
    rw [hc] at hlenp
    exact hne (List.length_eq_zero.mp hlenp.symm)
  rw [hre]
  refine ⟨?_, ?_, ?_, ?_⟩
  · intro ha
    rw [recomputeState_proc] at ha
    exact recomputeState_all _ _ hne2 ha
  · intro ha
    rw [recomputeState_proc] at ha
    exact recomputeState_all _ _ hne2 ha
  · intro ha
    rw [recomputeState_proc] at ha
    exact recomputeState_all _ _ hne2 ha
  · intro hF hS hR
    rw [recomputeState_proc] at hF hS hR
    exact recomputeState_mixed _ hne2 hF hS hR

theorem sigchld_recomputes_aggregate_witness :
    findPidAux reapSt.jobs 50 0 = some (0, 0) ∧
    ((reapOne reapSt 50 (ChildEvent.exited 3)).jobs.getD 0 zeroJob).state = PState.FINISHED :=
  ⟨by decide,
   (sigchld_recomputes_aggregate reapSt 50 (ChildEvent.exited 3) 0 0 (by decide)).1 (by decide)⟩

/-! ## Helper lemmas for the registry operations -/

theorem getLast?_eq_getD {α : Type} (l : List α) (d : α) (h : l ≠ []) :
    l.getLast? = some (l.getD (l.length - 1) d) := by
  induction l with
  | nil => exact absurd rfl h
  | cons a rest ih =>
    cases rest with
    | nil => rfl
    | cons b t =>
      rw [List.getLast?_cons_cons, ih (by simp)]
      simp [List.getD]

theorem jobstate_fields (st : ShellState) (j : Nat) :
    ((jobstate st j).2.2).ttyFg = st.ttyFg ∧ ((jobstate st j).2.2).ttyMode = st.ttyMode ∧
    ((jobstate st j).2.2).shellTmodes = st.shellTmodes ∧
    ((jobstate st j).2.2).shellPgrp = st.shellPgrp := by
  unfold jobstate
  by_cases h : (st.jobs.getD j zeroJob).state = PState.FINISHED
  · rw [if_pos h]
    exact ⟨rfl, rfl, rfl, rfl⟩
  · rw [if_neg h]
    exact ⟨rfl, rfl, rfl, rfl⟩

/-- C4: `jobstate` returns the job's current aggregate state, and
exactly when that state is Finished it also writes the captured exit
status — the raw status of the job's last process — through the out
parameter and deletes the job, freeing its slot (`pgid = 0`). -/
theorem jobstate_finished_consumes (st : ShellState) (j : Nat)
    (hj : j < st.jobs.length) (hp : (st.jobs.getD j zeroJob).proc ≠ []) :
    (jobstate st j).1 = (st.jobs.getD j zeroJob).state ∧
    ((st.jobs.getD j zeroJob).state = PState.FINISHED →
      (jobstate st j).2.1 = some (exitcode (st.jobs.getD j zeroJob)) ∧
      (∃ p, (st.jobs.getD j zeroJob).proc.getLast? = some p ∧
        exitcode (st.jobs.getD j zeroJob) = p.exitcode) ∧
      ((jobstate st j).2.2.jobs.getD j zeroJob).pgid = 0 ∧
      ((jobstate st j).2.2.jobs.getD j zeroJob).proc = []) ∧
    ((st.jobs.getD j zeroJob).state ≠ PState.FINISHED →
      (jobstate st j).2.1 = none ∧ (jobstate st j).2.2 = st) := by
  by_cases hf : (st.jobs.getD j zeroJob).state = PState.FINISHED
  · have hjs : jobstate st j =
        ((st.jobs.getD j zeroJob).state, some (exitcode (st.jobs.getD j zeroJob)),
          { st with jobs := st.jobs.set j (deljob (st.jobs.getD j zeroJob)) }) := by
      unfold jobstate
      rw [if_pos hf]
    refine ⟨by rw [hjs], fun _ => ?_, fun hc => absurd hf hc⟩
    refine ⟨by rw [hjs], ?_, ?_, ?_⟩
    · exact ⟨(st.jobs.getD j zeroJob).proc.getD ((st.jobs.getD j zeroJob).proc.length - 1)
        zeroProc, getLast?_eq_getD _ zeroProc hp, rfl⟩
    · rw [hjs]
      rw [getD_set_self _ _ _ _ hj]
      rfl
    · rw [hjs]
      rw [getD_set_self _ _ _ _ hj]
      rfl
  · have hjs : jobstate st j = ((st.jobs.getD j zeroJob).state, none, st) := by
      unfold jobstate
      rw [if_neg hf]
    exact ⟨by rw [hjs], fun hc => absurd hc hf, fun _ => ⟨by rw [hjs], by rw [hjs]⟩⟩

theorem jobstate_finished_consumes_witness :
    (jobstate finSt 1).2.1 = some 1792 ∧
    ((jobstate finSt 1).2.2.jobs.getD 1 zeroJob).pgid = 0 ∧
    (finSt.jobs.getD 1 zeroJob).proc.getLast? = some
      { pid := 51, state := PState.FINISHED, exitcode := 1792 } := by
  have h := (jobstate_finished_consumes finSt 1 (by decide) (by decide)).2.1 (by decide)
  refine ⟨by rw [h.1]; decide, h.2.2.1, by decide⟩

/-- C5 counterexample: `killjob` on the stopped job 1 reports success
and sends both signals to the job's group, but the first signal sent is
the terminate signal — the continue signal follows it, contradicting
the claimed continue-before-terminate order. -/
theorem killjob_order_cex :
    (stopSt.jobs.getD 1 zeroJob).state = PState.STOPPED ∧
    killjob stopSt 1 = (true, [Eff.kill 5 Sig.SIGTERM, Eff.kill 5 Sig.SIGCONT]) ∧
    (killjob stopSt 1).2.head? ≠ some (Eff.kill 5 Sig.SIGCONT) := by decide

/-- C5 amended: for an in-range, non-Finished job, `killjob` reports
true and sends a terminate signal to the job's whole process group,
followed (not preceded) by a continue signal when the job is Stopped —
the terminate stays pending against the stopped group until the
continue delivers it; otherwise it reports false with no signals. -/
theorem killjob_signal_spec (st : ShellState) (j : Nat) :
    killjob st j =
      if j < st.jobs.length ∧ (st.jobs.getD j zeroJob).state ≠ PState.FINISHED then
        (true,
          Eff.kill (st.jobs.getD j zeroJob).pgid Sig.SIGTERM ::
            (if (st.jobs.getD j zeroJob).state = PState.STOPPED then
              [Eff.kill (st.jobs.getD j zeroJob).pgid Sig.SIGCONT]
            else []))
      else (false, []) := by
  unfold killjob
  by_cases h : st.jobs.length ≤ j ∨ (st.jobs.getD j zeroJob).state = PState.FINISHED
  · rw [if_pos h, if_neg]
    rintro ⟨h1, h2⟩
    rcases h with h | h
    · omega
    · exact h2 h
  · push_neg at h
    rw [if_neg, if_pos ⟨by omega, h.2⟩]
    intro hc
    rcases hc with hc | hc
    · omega
    · exact h.2 hc

/-- C7 counterexample: the terminal-ownership precondition is violated
(`ttyFg ≠ shellPgrp`), yet with an out-of-range job argument the call
fails silently — no no-job-control message is reported, contrary to the
claim. -/
theorem resumejob_noctl_silent_cex :
    noCtlSt.ttyFg ≠ noCtlSt.shellPgrp ∧
    resumejob noCtlSt 5 false [] = some (false, noCtlSt, []) := by decide

/-- C7 amended: when the shell is not the terminal's foreground group or
the foreground slot is occupied, `resumejob` fails (false) and leaves
the registry, terminal ownership and terminal mode unchanged with no
signals sent; the no-job-control message is emitted exactly when the
selected job index is in range and its job is not Finished — for an
invalid selection the call fails silently before the ownership guard. -/
theorem resumejob_noctl_no_effects (st : ShellState) (jArg : Int) (bg : Bool)
    (evs : List SuspendEvent)
    (h : st.ttyFg ≠ st.shellPgrp ∨ (st.jobs.getD 0 zeroJob).pgid ≠ 0) :
    resumejob st jArg bg evs =
      some (false, st,
        if st.jobs.length ≤ resumeIdx st jArg ∨
            (st.jobs.getD (resumeIdx st jArg) zeroJob).state = PState.FINISHED then
          []
        else [Eff.msg Output.noJobCtl]) := by
  unfold resumejob
  by_cases hsel : st.jobs.length ≤ resumeIdx st jArg ∨
      (st.jobs.getD (resumeIdx st jArg) zeroJob).state = PState.FINISHED
  · rw [if_pos hsel, if_pos hsel]
  · rw [if_neg hsel, if_pos h, if_neg hsel]

theorem resumejob_noctl_no_effects_witness :
    resumejob noCtl2St 1 false [] = some (false, noCtl2St, [Eff.msg Output.noJobCtl]) := by
  have h := resumejob_noctl_no_effects noCtl2St 1 false [] (Or.inl (by decide))
  rw [h]
  decide

/-! ## The default-job scan -/

theorem selGo_le (jobs : List Job) (j : Nat) : selGo jobs j ≤ j := by
  induction j with
  | zero => simp [selGo]
  | succ n ih =>
    unfold selGo
    by_cases h : (jobs.getD (n + 1) zeroJob).state = PState.FINISHED
    · rw [if_pos h]
      exact Nat.le_succ_of_le ih
    · rw [if_neg h]

theorem selGo_above (jobs : List Job) (j : Nat) :
    ∀ m, selGo jobs j < m → m ≤ j → (jobs.getD m zeroJob).state = PState.FINISHED := by
  induction j with
  | zero => intro m h1 h2; omega
  | succ n ih =>
    intro m h1 h2
    unfold selGo at h1
    by_cases h : (jobs.getD (n + 1) zeroJob).state = PState.FINISHED
    · rw [if_pos h] at h1
      rcases Nat.lt_or_ge m (n + 1) with hm | hm
      · exact ih m h1 (by omega)
      · have hm1 : m = n + 1 := by omega
        rw [hm1]
        exact h
    · rw [if_neg h] at h1
      omega

theorem selGo_hit (jobs : List Job) (j k : Nat) (hk1 : 1 ≤ k) (hkj : k ≤ j)
    (hk : (jobs.getD k zeroJob).state ≠ PState.FINISHED) :
    1 ≤ selGo jobs j ∧ k ≤ selGo jobs j ∧
    (jobs.getD (selGo jobs j) zeroJob).state ≠ PState.FINISHED := by
  induction j with
  | zero => omega
  | succ n ih =>
    unfold selGo
    by_cases h : (jobs.getD (n + 1) zeroJob).state = PState.FINISHED
    · rw [if_pos h]
      have hkn : k ≤ n := by
        by_contra hc
        have hkn1 : k = n + 1 := by omega
        rw [hkn1] at hk
        exact hk h
      exact ih hkn
    · rw [if_neg h]
      exact ⟨by omega, hkj, h⟩

/-- C6 counterexample: after slot 1 is freed and reused, the most
recently allocated job (pgid 30, returned slot 1 by `addjob`) is not
Finished, yet the default selection picks slot 2 — an earlier
allocation. -/
theorem resumeSelect_not_most_recent_cex :
    c6add3.1 = 1 ∧ (c6st5.jobs.getD 1 zeroJob).state ≠ PState.FINISHED ∧
    resumeSelect c6st5 = 2 ∧ (2 : Nat) ≠ c6add3.1 := by decide

/-- C6 amended: with no explicit job named, `resumejob` selects the job
in the highest-numbered slot whose state is not Finished (free slots
read as Finished).  This coincides with the most recently allocated
non-Finished job only while freed slots have not been reused. -/
theorem resumeSelect_highest_nonfinished (st : ShellState) (k : Nat)
    (hk1 : 1 ≤ k) (hk2 : k < st.jobs.length)
    (hk : (st.jobs.getD k zeroJob).state ≠ PState.FINISHED) :
    1 ≤ resumeSelect st ∧ resumeSelect st < st.jobs.length ∧
    (st.jobs.getD (resumeSelect st) zeroJob).state ≠ PState.FINISHED ∧
    k ≤ resumeSelect st ∧
    ∀ m, resumeSelect st < m → m < st.jobs.length →
      (st.jobs.getD m zeroJob).state = PState.FINISHED := by
  simp only [resumeSelect]
  have hkj : k ≤ st.jobs.length - 1 := by omega
  obtain ⟨h1, h2, h3⟩ := selGo_hit st.jobs (st.jobs.length - 1) k hk1 hkj hk
  have hle := selGo_le st.jobs (st.jobs.length - 1)
  refine ⟨h1, by omega, h3, h2, ?_⟩
  intro m hm1 hm2
  exact selGo_above st.jobs (st.jobs.length - 1) m hm1 (by omega)

theorem resumeSelect_highest_nonfinished_witness :
    1 ≤ resumeSelect c6st5 ∧ resumeSelect c6st5 < c6st5.jobs.length ∧
    (c6st5.jobs.getD (resumeSelect c6st5) zeroJob).state ≠ PState.FINISHED := by
  have h := resumeSelect_highest_nonfinished c6st5 1 (by decide) (by decide) (by decide)
  exact ⟨h.1, h.2.1, h.2.2.1⟩

/-! ## Preservation of the shell-global fields through waiting -/

theorem sigchld_handler_fields (reaps : List (Nat × ChildEvent)) : ∀ st : ShellState,
    (sigchld_handler st reaps).ttyFg = st.ttyFg ∧
    (sigchld_handler st reaps).ttyMode = st.ttyMode ∧
    (sigchld_handler st reaps).shellTmodes = st.shellTmodes ∧
    (sigchld_handler st reaps).shellPgrp = st.shellPgrp := by
  induction reaps with
  | nil => intro st; exact ⟨rfl, rfl, rfl, rfl⟩
  | cons pe rest ih => intro st; exact ih (reapOne st pe.1 pe.2)

theorem applySuspend_fields (st : ShellState) (e : SuspendEvent) :
    (applySuspend st e).ttyFg = st.ttyFg ∧
    (applySuspend st e).shellTmodes = st.shellTmodes ∧
    (applySuspend st e).shellPgrp = st.shellPgrp := by
  have h := sigchld_handler_fields e.reaps st
  exact ⟨h.1, h.2.2.1, h.2.2.2⟩

theorem monitorLoop_inv (evs : List SuspendEvent) : ∀ (st : ShellState) (s : PState)
    (ec : Int) (st1 : ShellState), monitorLoop evs st = some (s, ec, st1) →
    s ≠ PState.RUNNING ∧ st1.shellTmodes = st.shellTmodes ∧
    st1.shellPgrp = st.shellPgrp ∧
    (s ≠ PState.FINISHED → (st1.jobs.getD 0 zeroJob).state = s) := by
  induction evs with
  | nil =>
    intro st s ec st1 h
    rw [monitorLoop] at h
    by_cases hr : (jobstate st 0).1 = PState.RUNNING
    · rw [if_pos hr] at h
      exact absurd h (by simp)
    · rw [if_neg hr] at h
      have h' := Option.some.inj h
      have hs : s = (jobstate st 0).1 := (congrArg (fun x => x.1) h').symm
      have hst : st1 = (jobstate st 0).2.2 := (congrArg (fun x => x.2.2) h').symm
      subst hs
      subst hst
      have hf := jobstate_fields st 0
      refine ⟨hr, hf.2.2.1, hf.2.2.2, ?_⟩
      intro hnf
      by_cases hfin : (st.jobs.getD 0 zeroJob).state = PState.FINISHED
      · have hone : (jobstate st 0).1 = PState.FINISHED := by
          unfold jobstate
          rw [if_pos hfin]
          exact hfin
        exact absurd hone hnf
      · have hjs : jobstate st 0 = ((st.jobs.getD 0 zeroJob).state, none, st) := by
          unfold jobstate
          rw [if_neg hfin]
        rw [hjs]
  | cons e es ih =>
    intro st s ec st1 h
    rw [monitorLoop] at h
    by_cases hr : (jobstate st 0).1 = PState.RUNNING
    · rw [if_pos hr] at h
      obtain ⟨h1, h2, h3, h4⟩ := ih (applySuspend (jobstate st 0).2.2 e) s ec st1 h
      have hf := jobstate_fields st 0
      have ha := applySuspend_fields (jobstate st 0).2.2 e
      refine ⟨h1, ?_, ?_, h4⟩
      · rw [h2, ha.2.1, hf.2.2.1]
      · rw [h3, ha.2.2, hf.2.2.2]
    · rw [if_neg hr] at h
      have h' := Option.some.inj h
      have hs : s = (jobstate st 0).1 := (congrArg (fun x => x.1) h').symm
      have hst : st1 = (jobstate st 0).2.2 := (congrArg (fun x => x.2.2) h').symm
      subst hs
      subst hst
      have hf := jobstate_fields st 0
      refine ⟨hr, hf.2.2.1, hf.2.2.2, ?_⟩
      intro hnf
      by_cases hfin : (st.jobs.getD 0 zeroJob).state = PState.FINISHED
      · have hone : (jobstate st 0).1 = PState.FINISHED := by
          unfold jobstate
          rw [if_pos hfin]
          exact hfin
        exact absurd hone hnf
      · have hjs : jobstate st 0 = ((st.jobs.getD 0 zeroJob).state, none, st) := by
          unfold jobstate
          rw [if_neg hfin]
        rw [hjs]

/-! ## Allocation and relocation -/

theorem findFreeAux_spec (l : List Job) : ∀ (b j : Nat), findFreeAux l b = some j →
    b ≤ j ∧ j - b < l.length ∧ (l.getD (j - b) zeroJob).pgid = 0 := by
  induction l with
  | nil => intro b j h; simp [findFreeAux] at h
  | cons a rest ih =>
    intro b j h
    unfold findFreeAux at h
    by_cases ha : a.pgid = 0
    · rw [if_pos ha] at h
      injection h with h
      subst h
      exact ⟨Nat.le_refl _, by simp, by simpa using ha⟩
    · rw [if_neg ha] at h
      obtain ⟨h1, h2, h3⟩ := ih (b + 1) j h
      refine ⟨by omega, ?_, ?_⟩
      · simp only [List.length_cons]
        omega
      · have hj : j - b = (j - (b + 1)) + 1 := by omega
        rw [hj]
        simpa using h3

theorem getD_drop {α : Type} (l : List α) (n i : Nat) (d : α) :
    (l.drop n).getD i d = l.getD (n + i) d := by
  simp [List.getD_eq_getElem?_getD, List.getElem?_drop]

theorem getD_append_len {α : Type} (l : List α) (x d : α) :
    (l ++ [x]).getD l.length d = x := by
  simp [List.getD_eq_getElem?_getD, List.getElem?_append_right (Nat.le_refl l.length)]

theorem getD_append_lt {α : Type} (l l2 : List α) (i : Nat) (d : α) (h : i < l.length) :
    (l ++ l2).getD i d = l.getD i d := by
  simp [List.getD_eq_getElem?_getD, List.getElem?_append, h]

theorem allocjob_spec (jobs : List Job) (hne : jobs ≠ []) :
    1 ≤ (allocjob jobs).1 ∧ (allocjob jobs).1 < (allocjob jobs).2.length ∧
    ((allocjob jobs).2.getD (allocjob jobs).1 zeroJob).pgid = 0 ∧
    (allocjob jobs).2.getD 0 zeroJob = jobs.getD 0 zeroJob ∧
    jobs.length ≤ (allocjob jobs).2.length := by
  have h0 : 0 < jobs.length := List.length_pos.mpr hne
  cases hf : findFree jobs with
  | some j =>
    have ha : allocjob jobs = (j, jobs) := by
      unfold allocjob
      rw [hf]
    obtain ⟨h1, h2, h3⟩ := findFreeAux_spec (jobs.drop 1) 1 j hf
    rw [getD_drop] at h3
    have hj : 1 + (j - 1) = j := by omega
    rw [hj] at h3
    rw [List.length_drop] at h2
    rw [ha]
    refine ⟨h1, ?_, h3, rfl, Nat.le_refl _⟩
    show j < jobs.length
    omega
  | none =>
    have ha : allocjob jobs = (jobs.length, jobs ++ [zeroJob]) := by
      unfold allocjob
      rw [hf]
    rw [ha]
    refine ⟨h0, ?_, ?_, ?_, ?_⟩
    · show jobs.length < (jobs ++ [zeroJob]).length
      simp
    · show ((jobs ++ [zeroJob]).getD jobs.length zeroJob).pgid = 0
      rw [getD_append_len]
      rfl
    · show (jobs ++ [zeroJob]).getD 0 zeroJob = jobs.getD 0 zeroJob
      rw [getD_append_lt _ _ _ _ h0]
    · show jobs.length ≤ (jobs ++ [zeroJob]).length
      simp

theorem movejob_spec (st : ShellState) (dst : Nat) (hd : dst ≠ 0)
    (hlt : dst < st.jobs.length) (h0 : 0 < st.jobs.length) :
    (movejob st 0 dst).jobs.getD dst zeroJob = st.jobs.getD 0 zeroJob ∧
    (movejob st 0 dst).jobs.getD 0 zeroJob = zeroJob ∧
    (movejob st 0 dst).jobs.length = st.jobs.length := by
  unfold movejob
  refine ⟨?_, ?_, by simp⟩
  · rw [getD_set_ne _ 0 dst _ _ (fun hc => hd hc.symm)]
    exact getD_set_self _ _ _ _ hlt
  · rw [getD_set_self]
    simpa using h0

theorem stopRelocate_spec (st1 : ShellState) (hne : st1.jobs ≠ []) :
    1 ≤ stopSlot st1 ∧
    (stopRelocate st1).2
      = [Eff.msg (Output.susp (stopSlot st1) (st1.jobs.getD 0 zeroJob).command)] ∧
    (stopRelocate st1).1.jobs.getD (stopSlot st1) zeroJob = capJob st1 ∧
    (stopRelocate st1).1.jobs.getD 0 zeroJob = zeroJob ∧
    (stopRelocate st1).1.shellTmodes = st1.shellTmodes ∧
    (stopRelocate st1).1.shellPgrp = st1.shellPgrp := by
  have h0 : 0 < st1.jobs.length := List.length_pos.mpr hne
  have hset : st1.jobs.set 0 (capJob st1) ≠ [] := by
    intro hc
    have hlc := congrArg List.length hc
    rw [List.length_set] at hlc
    exact hne (List.length_eq_zero.mp hlc)
  obtain ⟨a1, a2, a3, a4, a5⟩ := allocjob_spec (st1.jobs.set 0 (capJob st1)) hset
  have hsl : (st1.jobs.set 0 (capJob st1)).length = st1.jobs.length := List.length_set _ _ _
  have hcap0 : (st1.jobs.set 0 (capJob st1)).getD 0 zeroJob = capJob st1 :=
    getD_set_self _ _ _ _ h0
  have hms := movejob_spec
    { st1 with jobs := (allocjob (st1.jobs.set 0 (capJob st1))).2 }
    (stopSlot st1) (by unfold stopSlot; omega) a2
    (by show 0 < (allocjob (st1.jobs.set 0 (capJob st1))).2.length; omega)
  have hcmd : ((allocjob (st1.jobs.set 0 (capJob st1))).2.getD 0 zeroJob) = capJob st1 := by
    rw [a4, hcap0]
  refine ⟨a1, ?_, ?_, ?_, rfl, rfl⟩
  · show [Eff.msg (Output.susp (stopSlot st1)
      (jobcmd (movejob { st1 with jobs := (allocjob (st1.jobs.set 0 (capJob st1))).2 } 0
        (stopSlot st1)) (stopSlot st1)))]
      = [Eff.msg (Output.susp (stopSlot st1) (st1.jobs.getD 0 zeroJob).command)]
    unfold jobcmd
    rw [hms.1]
    rw [show ({ st1 with jobs := (allocjob (st1.jobs.set 0 (capJob st1))).2 } : ShellState).jobs.getD 0 zeroJob
        = capJob st1 from hcmd]
    rfl
  · show (movejob { st1 with jobs := (allocjob (st1.jobs.set 0 (capJob st1))).2 } 0
      (stopSlot st1)).jobs.getD (stopSlot st1) zeroJob = capJob st1
    rw [hms.1]
    exact hcmd
  · exact hms.2.1

/-- C3 counterexample: a `monitorjob` call that completes (the job
finishes) entered with terminal mode 5 while the shell's saved mode is
7: on return the terminal mode is 7, not the mode the terminal had
before the call.  Such a pre-state arises on the resume path, which
restores the job's saved modes before monitoring. -/
theorem monitorjob_premode_cex :
    monitorjob preModeSt [{ reaps := [(100, ChildEvent.exited 0)], tmode := none }] =
      some (0,
        { jobs := [{ pgid := 0, proc := [], tmodes := 5, state := PState.FINISHED,
                     command := "" }],
          ttyFg := 1, ttyMode := 7, shellTmodes := 7, shellPgrp := 1 }, []) ∧
    (7 : Nat) ≠ preModeSt.ttyMode := by decide

/-- C3 amended: every completed `monitorjob` call returns with the
shell's own process group owning the terminal and the terminal mode
equal to the shell's saved mode `shell_tmodes` — which the call leaves
unchanged, and which coincides with the pre-call terminal mode only
when the terminal already carried the shell's saved mode (the plain
foreground-launch path), not in general. -/
theorem monitorjob_restores_shell_tmodes (st : ShellState) (evs : List SuspendEvent)
    (ec : Int) (st1 : ShellState) (effs : List Eff)
    (h : monitorjob st evs = some (ec, st1, effs)) :
    st1.ttyFg = st.shellPgrp ∧ st1.ttyMode = st.shellTmodes ∧
    st1.shellTmodes = st.shellTmodes ∧ st1.shellPgrp = st.shellPgrp := by
  unfold monitorjob at h
  cases hm : monitorLoop evs (monitorEntry st) with
  | none =>
    rw [hm] at h
    exact absurd h (by simp)
  | some r =>
    rw [hm] at h
    have hinv := monitorLoop_inv evs (monitorEntry st) r.1 r.2.1 r.2.2 (by rw [hm])
    have h' := Option.some.inj h
    have hst : st1 = (monitorFinish r.1 r.2.1 r.2.2).2.1 :=
      (congrArg (fun x => x.2.1) h').symm
    rw [hst]
    by_cases hs : r.1 = PState.STOPPED
    · have hne2 : r.2.2.jobs ≠ [] := by
        intro hc
        have hz := hinv.2.2.2 (by rw [hs]; decide)
        rw [hc, hs] at hz
        exact absurd hz (by decide)
      have hsp := stopRelocate_spec r.2.2 hne2
      have hmf : monitorFinish r.1 r.2.1 r.2.2 =
          (r.2.1, { (stopRelocate r.2.2).1 with ttyMode := (stopRelocate r.2.2).1.shellTmodes, ttyFg := (stopRelocate r.2.2).1.shellPgrp }, (stopRelocate r.2.2).2) := by
        simp only [monitorFinish]
        rw [if_pos hs]
        rw [if_pos hinv.1]
      rw [hmf]
      refine ⟨?_, ?_, ?_, ?_⟩
      · show (stopRelocate r.2.2).1.shellPgrp = st.shellPgrp
        rw [hsp.2.2.2.2.2, hinv.2.2.1]
        rfl
      · show (stopRelocate r.2.2).1.shellTmodes = st.shellTmodes
        rw [hsp.2.2.2.2.1, hinv.2.1]
        rfl
      · show (stopRelocate r.2.2).1.shellTmodes = st.shellTmodes
        rw [hsp.2.2.2.2.1, hinv.2.1]
        rfl
      · show (stopRelocate r.2.2).1.shellPgrp = st.shellPgrp
        rw [hsp.2.2.2.2.2, hinv.2.2.1]
        rfl
    · have hmf : monitorFinish r.1 r.2.1 r.2.2 =
          (r.2.1, { r.2.2 with ttyMode := r.2.2.shellTmodes, ttyFg := r.2.2.shellPgrp }, []) := by
        simp only [monitorFinish]
        rw [if_neg hs]
        rw [if_pos hinv.1]
      rw [hmf]
      exact ⟨hinv.2.2.1, hinv.2.1, hinv.2.1, hinv.2.2.1⟩

theorem monitorjob_restores_shell_tmodes_witness :
    c3Res.ttyFg = c3St.shellPgrp ∧ c3Res.ttyMode = c3St.shellTmodes ∧
    c3Res.shellTmodes = c3St.shellTmodes ∧ c3Res.shellPgrp = c3St.shellPgrp :=
  monitorjob_restores_shell_tmodes c3St [c3Ev] 0 c3Res [] (by decide)

/-- C8: when the monitored foreground job's aggregate state becomes
Stopped, the monitor captures the terminal's current mode into the job
record, relocates the job wholesale into a freshly allocated background
slot (index ≥ 1), leaves slot 0 free (`pgid = 0`), emits the suspended
notice, and returns terminal ownership and the shell's saved terminal
mode to the shell. -/
theorem monitorjob_stop_relocates (st : ShellState) (evs : List SuspendEvent)
    (ec : Int) (st1 : ShellState)
    (h : monitorLoop evs (monitorEntry st) = some (PState.STOPPED, ec, st1)) :
    ∃ (dst : Nat) (st2 : ShellState),
      monitorjob st evs
        = some (ec, st2, [Eff.msg (Output.susp dst (st1.jobs.getD 0 zeroJob).command)]) ∧
      1 ≤ dst ∧
      st2.jobs.getD dst zeroJob = { st1.jobs.getD 0 zeroJob with tmodes := st1.ttyMode } ∧
      st2.jobs.getD 0 zeroJob = zeroJob ∧
      st2.ttyFg = st.shellPgrp ∧ st2.ttyMode = st.shellTmodes := by
  have hinv := monitorLoop_inv evs (monitorEntry st) PState.STOPPED ec st1 h
  have hne : st1.jobs ≠ [] := by
    intro hc
    have hz := hinv.2.2.2 (by decide)
    rw [hc] at hz
    exact absurd hz (by decide)
  obtain ⟨a1, a2, a3, a4, a5, a6⟩ := stopRelocate_spec st1 hne
  refine ⟨stopSlot st1, { (stopRelocate st1).1 with ttyMode := (stopRelocate st1).1.shellTmodes, ttyFg := (stopRelocate st1).1.shellPgrp }, ?_, a1, ?_, ?_, ?_, ?_⟩
  · unfold monitorjob
    rw [h]
    show some (monitorFinish PState.STOPPED ec st1) = _
    have hmf : monitorFinish PState.STOPPED ec st1 =
        (ec, { (stopRelocate st1).1 with ttyMode := (stopRelocate st1).1.shellTmodes, ttyFg := (stopRelocate st1).1.shellPgrp }, (stopRelocate st1).2) := by
      simp [monitorFinish]
    rw [hmf, a2]
  · exact a3
  · exact a4
  · show (stopRelocate st1).1.shellPgrp = st.shellPgrp
    rw [a6, hinv.2.2.1]
    rfl
  · show (stopRelocate st1).1.shellTmodes = st.shellTmodes
    rw [a5, hinv.2.1]
    rfl

theorem monitorjob_stop_relocates_witness :
    ∃ (dst : Nat) (st2 : ShellState),
      monitorjob c8St [c8Ev]
        = some (0, st2, [Eff.msg (Output.susp dst (c8Mid.jobs.getD 0 zeroJob).command)]) ∧
      1 ≤ dst ∧
      st2.jobs.getD dst zeroJob = { c8Mid.jobs.getD 0 zeroJob with tmodes := c8Mid.ttyMode } ∧
      st2.jobs.getD 0 zeroJob = zeroJob ∧
      st2.ttyFg = c8St.shellPgrp ∧ st2.ttyMode = c8St.shellTmodes :=
  monitorjob_stop_relocates c8St [c8Ev] 0 c8Mid (by decide)

/-! ## Redirection resolution -/

theorem redirAux_n_mode (ts : List Token) : ∀ (i n : Nat), (redirAux ts i n true).1 = n := by
  induction ts with
  | nil => intro i n; rfl
  | cons t rest ih =>
    intro i n
    unfold redirAux
    by_cases h1 : t = Token.T_INPUT
    · rw [if_pos h1]
      simp [ih]
    · rw [if_neg h1]
      by_cases h2 : t = Token.T_OUTPUT
      · rw [if_pos h2]
        simp [ih]
      · rw [if_neg h2]
        simp [ih]

theorem redirAux_n_count (ts : List Token) : ∀ i : Nat,
    (redirAux ts i i false).1 = i + (ts.takeWhile (fun t => !isRedir t)).length := by
  induction ts with
  | nil => intro i; simp [redirAux]
  | cons t rest ih =>
    intro i
    unfold redirAux
    by_cases h1 : t = Token.T_INPUT
    · rw [if_pos h1]
      simp [redirAux_n_mode, h1, isRedir]
    · rw [if_neg h1]
      by_cases h2 : t = Token.T_OUTPUT
      · rw [if_pos h2]
        simp [redirAux_n_mode, h2, isRedir]
      · rw [if_neg h2]
        have hnr : isRedir t = false := by
          cases t <;> simp [isRedir] at h1 h2 ⊢
        rw [show (if (false : Bool) = true then redirAux rest (i + 1) i true
            else redirAux rest (i + 1) (i + 1) false)
            = redirAux rest (i + 1) (i + 1) false from by rw [if_neg (by simp)]]
        rw [ih (i + 1)]
        simp [hnr]
        omega

theorem take_takeWhile {α : Type} (l : List α) (p : α → Bool) :
    l.take ((l.takeWhile p).length) = l.takeWhile p := by
  induction l with
  | nil => rfl
  | cons a rest ih =>
    by_cases h : p a
    · simp [List.takeWhile_cons, h, ih]
    · simp [List.takeWhile_cons, h]

/-- C9: redirection resolution keeps exactly the tokens that precede the
first redirection operator: the surviving command is the longest prefix
free of redirection operators, so every token — including regular
argument tokens — appearing after the first redirection operator is
silently dropped. -/
theorem do_redir_drops_tokens_after_redir (ts : List Token) :
    (do_redir ts).argv = ts.takeWhile (fun t => !isRedir t) ∧
    (do_redir ts).n = (ts.takeWhile (fun t => !isRedir t)).length := by
  have hn : (redirAux ts 0 0 false).1 = (ts.takeWhile (fun t => !isRedir t)).length := by
    have h := redirAux_n_count ts 0
    simpa using h
  constructor
  · show ts.take (redirAux ts 0 0 false).1 = _
    rw [hn]
    exact take_takeWhile ts _
  · exact hn

theorem redirAux_outO (ts : List Token) : ∀ (i n : Nat) (mode : Bool) (nm : Option String)
    (fl : OFlags) (md : Nat), OpenAction.outO nm fl md ∈ (redirAux ts i n mode).2 →
    fl = outFlags ∧ md = 0o664 := by
  induction ts with
  | nil => intro i n mode nm fl md h; simp [redirAux] at h
  | cons t rest ih =>
    intro i n mode nm fl md h
    unfold redirAux at h
    by_cases h1 : t = Token.T_INPUT
    · rw [if_pos h1] at h
      simp only [List.mem_cons] at h
      rcases h with h | h
      · cases h
      · exact ih _ _ _ _ _ _ h
    · rw [if_neg h1] at h
      by_cases h2 : t = Token.T_OUTPUT
      · rw [if_pos h2] at h
        simp only [List.mem_cons] at h
        rcases h with h | h
        · injection h with hnm hfl hmd
          exact ⟨hfl, hmd⟩
        · exact ih _ _ _ _ _ _ h
      · rw [if_neg h2] at h
        cases mode with
        | true =>
          rw [if_pos rfl] at h
          exact ih _ _ _ _ _ _ h
        | false =>
          rw [if_neg (by simp)] at h
          exact ih _ _ _ _ _ _ h

theorem getD_append_right {α : Type} (l l2 : List α) (i : Nat) (d : α) (h : l.length ≤ i) :
    (l ++ l2).getD i d = l2.getD (i - l.length) d := by
  simp [List.getD_eq_getElem?_getD, List.getElem?_append_right h]

/-- C10: every output redirection records an `Open` with flags
`O_WRONLY | O_CREAT` — write-only, create mode 0664, no truncation, no
append — so an existing target keeps its contents on open, and after a
write of `w` from offset 0 every byte at an offset past `w` still holds
its previous value. -/
theorem do_redir_output_no_trunc (ts : List Token) (nm : Option String)
    (fl : OFlags) (md : Nat) (h : OpenAction.outO nm fl md ∈ (do_redir ts).acts) :
    fl.wronly = true ∧ fl.creat = true ∧ fl.trunc = false ∧ fl.append = false ∧
    md = 0o664 ∧
    (∀ c : List Nat, openContents fl (some c) = c) ∧
    (∀ (c w : List Nat) (i : Nat), w.length ≤ i →
      (writeAt0 w (openContents fl (some c))).getD i 0 = c.getD i 0) := by
  obtain ⟨hfl, hmd⟩ := redirAux_outO ts 0 0 false nm fl md h
  subst hfl
  refine ⟨rfl, rfl, rfl, rfl, hmd, fun c => rfl, ?_⟩
  intro c w i hi
  show (w ++ (openContents outFlags (some c)).drop w.length).getD i 0 = c.getD i 0
  rw [show openContents outFlags (some c) = c from rfl]
  rw [getD_append_right _ _ _ _ hi, getD_drop]
  rw [show w.length + (i - w.length) = i from by omega]

theorem do_redir_output_no_trunc_witness :
    OpenAction.outO (some "f") outFlags 0o664
      ∈ (do_redir [Token.word "tee", Token.T_OUTPUT, Token.word "f"]).acts ∧
    outFlags.trunc = false ∧
    (writeAt0 [9] (openContents outFlags (some [1, 2, 3]))).getD 2 0 = [1, 2, 3].getD 2 0 := by
  have h := do_redir_output_no_trunc [Token.word "tee", Token.T_OUTPUT, Token.word "f"]
    (some "f") outFlags 0o664 (by decide)
  exact ⟨by decide, h.2.2.1, h.2.2.2.2.2.2 [1, 2, 3] [9] 2 (by decide)⟩

/-! ## Pipeline construction -/

theorem firstPipeAux_not_mem : ∀ (ts : List Token), Token.T_PIPE ∉ ts →
    ∀ i, firstPipeAux ts i = none := by
  intro ts
  induction ts with
  | nil => intro _ i; rfl
  | cons a t ih =>
    intro hs i
    unfold firstPipeAux
    have ha : a ≠ Token.T_PIPE := fun hc => hs (by rw [hc]; exact List.mem_cons_self _ _)
    rw [if_neg ha]
    exact ih (fun hm => hs (List.mem_cons_of_mem a hm)) (i + 1)

theorem firstPipeAux_append : ∀ (ts : List Token) (i : Nat) (rest : List Token),
    Token.T_PIPE ∉ ts → firstPipeAux (ts ++ Token.T_PIPE :: rest) i = some (i + ts.length) := by
  intro ts
  induction ts with
  | nil => intro i rest _; simp [firstPipeAux]
  | cons a t ih =>
    intro i rest h
    have ha : a ≠ Token.T_PIPE := fun hc => h (by rw [hc]; exact List.mem_cons_self _ _)
    show firstPipeAux (a :: (t ++ Token.T_PIPE :: rest)) i = some (i + (a :: t).length)
    unfold firstPipeAux
    rw [if_neg ha, ih (i + 1) rest (fun hm => h (List.mem_cons_of_mem a hm))]
    congr 1
    simp only [List.length_cons]
    omega

theorem firstPipe_append (ts rest : List Token) (hs : Token.T_PIPE ∉ ts) :
    firstPipe (ts ++ Token.T_PIPE :: rest) = some ts.length := by
  have h := firstPipeAux_append ts 0 rest hs
  simpa using h

theorem joinPipe_cons (s : List Token) (rest : List (List Token)) (h : rest ≠ []) :
    joinPipe (s :: rest) = s ++ Token.T_PIPE :: joinPipe rest := by
  cases rest with
  | nil => exact absurd rfl h
  | cons b t => rfl

theorem stage_ne_nil_of_redir (s : List Token) (h : (do_redir s).n ≠ 0) : s ≠ [] := by
  intro hc
  rw [hc] at h
  exact h rfl

theorem joinPipe_ne_nil (stages : List (List Token)) (h1 : stages ≠ [])
    (h2 : ∀ s ∈ stages, s ≠ []) : joinPipe stages ≠ [] := by
  cases stages with
  | nil => exact absurd rfl h1
  | cons s rest =>
    cases rest with
    | nil => exact h2 s (List.mem_cons_self _ _)
    | cons b t =>
      rw [joinPipe_cons s (b :: t) (by simp)]
      simp [List.append_eq_nil]

theorem loopLen_ne_nil (ts : List Token) (prevLen : Nat) (h : ts ≠ []) :
    loopLen ts prevLen = (firstPipe ts).getD ts.length := by
  cases ts with
  | nil => exact absurd rfl h
  | cons a t => rfl

theorem loopLen_nopipe (ts : List Token) (prevLen : Nat) (h1 : ts ≠ [])
    (h2 : Token.T_PIPE ∉ ts) : loopLen ts prevLen = ts.length := by
  rw [loopLen_ne_nil ts prevLen h1]
  rw [show firstPipe ts = none from firstPipeAux_not_mem ts h2 0]
  rfl

theorem loopLen_pipe (s rest : List Token) (prevLen : Nat) (h2 : Token.T_PIPE ∉ s) :
    loopLen (s ++ Token.T_PIPE :: rest) prevLen = s.length := by
  rw [loopLen_ne_nil _ prevLen (by simp), firstPipe_append s rest h2]
  rfl

theorem drop_append_cons {α : Type} (l : List α) (x : α) (l2 : List α) :
    (l ++ x :: l2).drop (l.length + 1) = l2 := by
  rw [show l ++ x :: l2 = (l ++ [x]) ++ l2 from by simp]
  rw [show l.length + 1 = (l ++ [x]).length from by simp]
  exact List.drop_left _ _

theorem addproc_getD (st : ShellState) (j : Nat) (pid : Nat) (argv : List String)
    (hj : j < st.jobs.length) :
    (addproc st j pid argv).jobs.getD j zeroJob
      = { st.jobs.getD j zeroJob with
            proc := (st.jobs.getD j zeroJob).proc ++ [mkProc pid],
            command := mkcommand (st.jobs.getD j zeroJob).command argv } ∧
    (addproc st j pid argv).jobs.length = st.jobs.length := by
  exact ⟨getD_set_self st.jobs j _ zeroJob hj, List.length_set _ _ _⟩

theorem pipeLoop_step (spawn : Nat → Nat) (k j : Nat) (st : ShellState)
    (s rl : List Token) (prevLen : Nat) (hs : Token.T_PIPE ∉ s)
    (hn : (do_redir s).n ≠ 0) (hrl : rl ≠ []) :
    pipeLoop spawn k j st (s ++ Token.T_PIPE :: rl) prevLen
      = pipeLoop spawn (k + 1) j (addproc st j (spawn k) ((do_redir s).argv.map tokStr))
          rl s.length := by
  have hcond : s.length + 1 < (s ++ Token.T_PIPE :: rl).length := by
    simp only [List.length_append, List.length_cons]
    have := List.length_pos.mpr hrl
    omega
  have hds : do_stage spawn k s = some (spawn k, (do_redir s).argv) := by
    unfold do_stage
    rw [if_neg hn]
  conv_lhs => rw [pipeLoop]
  rw [loopLen_pipe s rl prevLen hs, List.take_left, hds]
  show (if h : s.length + 1 < (s ++ Token.T_PIPE :: rl).length then
      pipeLoop spawn (k + 1) j (addproc st j (spawn k) ((do_redir s).argv.map tokStr))
        ((s ++ Token.T_PIPE :: rl).drop (s.length + 1)) s.length
    else some (addproc st j (spawn k) ((do_redir s).argv.map tokStr)))
    = pipeLoop spawn (k + 1) j (addproc st j (spawn k) ((do_redir s).argv.map tokStr))
        rl s.length
  rw [dif_pos hcond, drop_append_cons]

theorem pipeLoop_last (spawn : Nat → Nat) (k j : Nat) (st : ShellState)
    (s : List Token) (prevLen : Nat) (hs : Token.T_PIPE ∉ s)
    (hn : (do_redir s).n ≠ 0) :
    pipeLoop spawn k j st s prevLen
      = some (addproc st j (spawn k) ((do_redir s).argv.map tokStr)) := by
  have hne : s ≠ [] := stage_ne_nil_of_redir s hn
  have hds : do_stage spawn k s = some (spawn k, (do_redir s).argv) := by
    unfold do_stage
    rw [if_neg hn]
  conv_lhs => rw [pipeLoop]
  rw [loopLen_nopipe s prevLen hne hs, List.take_length, hds]
  show (if h : s.length + 1 < s.length then
      pipeLoop spawn (k + 1) j (addproc st j (spawn k) ((do_redir s).argv.map tokStr))
        (s.drop (s.length + 1)) s.length
    else some (addproc st j (spawn k) ((do_redir s).argv.map tokStr)))
    = some (addproc st j (spawn k) ((do_redir s).argv.map tokStr))
  rw [dif_neg (by omega)]

theorem cons_range_mkproc (spawn : Nat → Nat) (k n : Nat) :
    mkProc (spawn k) :: (List.range n).map (fun m => mkProc (spawn (k + 1 + m)))
      = (List.range (n + 1)).map (fun m => mkProc (spawn (k + m))) := by
  rw [List.range_succ_eq_map n, List.map_cons, List.map_map]
  refine congrArg₂ _ ?_ ?_
  · rw [Nat.add_zero]
  · apply List.map_congr_left
    intro m hm
    show mkProc (spawn (k + 1 + m)) = mkProc (spawn (k + (m + 1)))
    rw [show k + (m + 1) = k + 1 + m from by omega]

theorem pipeLoop_spec : ∀ (stages : List (List Token)) (spawn : Nat → Nat) (k j : Nat)
    (st : ShellState) (prevLen : Nat),
    stages ≠ [] →
    (∀ s ∈ stages, Token.T_PIPE ∉ s) →
    (∀ s ∈ stages, (do_redir s).n ≠ 0) →
    j < st.jobs.length →
    ∃ st2 : ShellState,
      pipeLoop spawn k j st (joinPipe stages) prevLen = some st2 ∧
      st2.jobs.length = st.jobs.length ∧
      (st2.jobs.getD j zeroJob).proc
        = (st.jobs.getD j zeroJob).proc
            ++ (List.range stages.length).map (fun m => mkProc (spawn (k + m))) ∧
      (st2.jobs.getD j zeroJob).pgid = (st.jobs.getD j zeroJob).pgid := by
  intro stages
  induction stages with
  | nil => intro _ _ _ _ _ h; exact absurd rfl h
  | cons s rest ih =>
    intro spawn k j st prevLen _ hpf hok hj
    have hmem : s ∈ s :: rest := List.mem_cons_self _ _
    have hps := hpf s hmem
    have hns := hok s hmem
    have hap := addproc_getD st j (spawn k) ((do_redir s).argv.map tokStr) hj
    cases rest with
    | nil =>
      refine ⟨addproc st j (spawn k) ((do_redir s).argv.map tokStr),
        pipeLoop_last spawn k j st s prevLen hps hns, hap.2, ?_, ?_⟩
      · rw [hap.1]
        show (st.jobs.getD j zeroJob).proc ++ [mkProc (spawn k)]
          = (st.jobs.getD j zeroJob).proc
              ++ (List.range 1).map (fun m => mkProc (spawn (k + m)))
        show (st.jobs.getD j zeroJob).proc ++ [mkProc (spawn k)]
          = (st.jobs.getD j zeroJob).proc ++ [mkProc (spawn (k + 0))]
        rw [Nat.add_zero]
      · rw [hap.1]
    | cons s2 rest2 =>
      rw [joinPipe_cons s (s2 :: rest2) (by simp)]
      rw [pipeLoop_step spawn k j st s (joinPipe (s2 :: rest2)) prevLen hps hns
        (joinPipe_ne_nil (s2 :: rest2) (by simp)
          (fun q hq => stage_ne_nil_of_redir q (hok q (List.mem_cons_of_mem s hq))))]
      obtain ⟨st2, hloop, hlen, hproc, hpgid⟩ := ih spawn (k + 1) j
        (addproc st j (spawn k) ((do_redir s).argv.map tokStr)) s.length (by simp)
        (fun q hq => hpf q (List.mem_cons_of_mem s hq))
        (fun q hq => hok q (List.mem_cons_of_mem s hq))
        (by rw [hap.2]; exact hj)
      refine ⟨st2, hloop, by rw [hlen, hap.2], ?_, by rw [hpgid, hap.1]⟩
      rw [hproc, hap.1]
      show ((st.jobs.getD j zeroJob).proc ++ [mkProc (spawn k)])
          ++ (List.range (s2 :: rest2).length).map (fun m => mkProc (spawn (k + 1 + m)))
        = (st.jobs.getD j zeroJob).proc
            ++ (List.range (s :: s2 :: rest2).length).map (fun m => mkProc (spawn (k + m)))
      rw [List.append_assoc]
      rw [show [mkProc (spawn k)]
            ++ (List.range (s2 :: rest2).length).map (fun m => mkProc (spawn (k + 1 + m)))
          = mkProc (spawn k)
            :: (List.range (s2 :: rest2).length).map (fun m => mkProc (spawn (k + 1 + m)))
        from rfl]
      rw [cons_range_mkproc spawn k (s2 :: rest2).length]
      rfl

theorem addjob_spec (st : ShellState) (pgid : Nat) (bg : Bool) (hjobs : st.jobs ≠ []) :
    (addjob st pgid bg).1 < (addjob st pgid bg).2.jobs.length ∧
    (addjob st pgid bg).2.jobs.getD (addjob st pgid bg).1 zeroJob
      = { pgid := pgid, proc := [], tmodes := st.shellTmodes,
          state := PState.RUNNING, command := "" } := by
  have h0 : 0 < st.jobs.length := List.length_pos.mpr hjobs
  cases bg with
  | false =>
    constructor
    · show (0 : Nat) < (st.jobs.set 0 _).length
      simpa using h0
    · exact getD_set_self st.jobs 0 _ zeroJob h0
  | true =>
    obtain ⟨a1, a2, a3, a4, a5⟩ := allocjob_spec st.jobs hjobs
    constructor
    · show (allocjob st.jobs).1 < ((allocjob st.jobs).2.set (allocjob st.jobs).1 _).length
      simpa using a2
    · exact getD_set_self (allocjob st.jobs).2 (allocjob st.jobs).1 _ zeroJob a2

theorem range_mkproc_zero (spawn : Nat → Nat) (n : Nat) :
    mkProc (spawn 0) :: (List.range n).map (fun m => mkProc (spawn (1 + m)))
      = (List.range (n + 1)).map (fun m => mkProc (spawn m)) := by
  rw [List.range_succ_eq_map n, List.map_cons, List.map_map]
  refine congrArg₂ _ rfl ?_
  apply List.map_congr_left
  intro m hm
  show mkProc (spawn (1 + m)) = mkProc (spawn (m + 1))
  rw [Nat.add_comm]

theorem map_pid_mkproc (spawn : Nat → Nat) (n : Nat) :
    ((List.range n).map (fun m => mkProc (spawn m))).map (fun p => p.pid)
      = (List.range n).map spawn := by
  rw [List.map_map]
  apply List.map_congr_left
  intro m hm
  rfl

theorem getD_range_map {α : Type} (f : Nat → α) (n i : Nat) (d : α) (h : i < n) :
    ((List.range n).map f).getD i d = f i := by
  simp [List.getD_eq_getElem?_getD, List.getElem?_map, List.getElem?_range h]

/-- C2: for every well-formed pipeline of N ≥ 2 stages (stage token
lists joined by single pipe tokens; each stage pipe-free and with a
nonempty command after redirection stripping), the builder registers
exactly N process entries under one single job, in stage order (entry m
holds the pid spawned for stage m), the job's group id is the first
stage's pid, and `exitcode` — the status the shell reports for the job —
reads the raw status field of the Nth (last) registered process. -/
theorem do_pipeline_registers_stages (spawn : Nat → Nat) (st : ShellState)
    (stages : List (List Token)) (bg : Bool)
    (hN : 2 ≤ stages.length)
    (hpf : ∀ s ∈ stages, Token.T_PIPE ∉ s)
    (hok : ∀ s ∈ stages, (do_redir s).n ≠ 0)
    (hjobs : st.jobs ≠ []) :
    ∃ (j : Nat) (st2 : ShellState),
      do_pipeline spawn st (joinPipe stages) bg = some (j, st2) ∧
      (st2.jobs.getD j zeroJob).proc.length = stages.length ∧
      (st2.jobs.getD j zeroJob).proc.map (fun p => p.pid)
        = (List.range stages.length).map spawn ∧
      (st2.jobs.getD j zeroJob).pgid = spawn 0 ∧
      exitcode (st2.jobs.getD j zeroJob)
        = ((st2.jobs.getD j zeroJob).proc.getD (stages.length - 1) zeroProc).exitcode ∧
      ((st2.jobs.getD j zeroJob).proc.getD (stages.length - 1) zeroProc).pid
        = spawn (stages.length - 1) := by
  cases stages with
  | nil => simp at hN
  | cons s0 rest =>
    cases rest with
    | nil => simp at hN
    | cons s1 rest2 =>
      have hpf0 := hpf s0 (List.mem_cons_self _ _)
      have hok0 := hok s0 (List.mem_cons_self _ _)
      have hjoin : joinPipe (s0 :: s1 :: rest2)
          = s0 ++ Token.T_PIPE :: joinPipe (s1 :: rest2) := joinPipe_cons _ _ (by simp)
      have hfp : firstPipe (joinPipe (s0 :: s1 :: rest2)) = some s0.length := by
        rw [hjoin]
        exact firstPipe_append _ _ hpf0
      have hds : do_stage spawn 0 s0 = some (spawn 0, (do_redir s0).argv) := by
        unfold do_stage
        rw [if_neg hok0]
      have haj := addjob_spec st (spawn 0) bg hjobs
      have hap := addproc_getD (addjob st (spawn 0) bg).2 (addjob st (spawn 0) bg).1
        (spawn 0) ((do_redir s0).argv.map tokStr) haj.1
      obtain ⟨st2, hloop, hlen2, hproc2, hpgid2⟩ := pipeLoop_spec (s1 :: rest2) spawn 1
        (addjob st (spawn 0) bg).1
        (addproc (addjob st (spawn 0) bg).2 (addjob st (spawn 0) bg).1 (spawn 0)
          ((do_redir s0).argv.map tokStr))
        s0.length (by simp)
        (fun q hq => hpf q (List.mem_cons_of_mem s0 hq))
        (fun q hq => hok q (List.mem_cons_of_mem s0 hq))
        (by rw [hap.2]; exact haj.1)
      have hdp : do_pipeline spawn st (joinPipe (s0 :: s1 :: rest2)) bg
          = some ((addjob st (spawn 0) bg).1, st2) := by
        unfold do_pipeline
        rw [hfp]
        rw [show (some s0.length).getD 0 = s0.length from rfl]
        rw [hjoin, List.take_left, drop_append_cons, hds]
        show (match pipeLoop spawn 1 (addjob st (spawn 0) bg).1
            (addproc (addjob st (spawn 0) bg).2 (addjob st (spawn 0) bg).1 (spawn 0)
              ((do_redir s0).argv.map tokStr))
            (joinPipe (s1 :: rest2)) s0.length with
          | none => none
          | some st3 => some ((addjob st (spawn 0) bg).1, st3)) = _
        rw [hloop]
      have hprocfin : (st2.jobs.getD (addjob st (spawn 0) bg).1 zeroJob).proc
          = (List.range (s0 :: s1 :: rest2).length).map (fun m => mkProc (spawn m)) := by
        rw [hproc2, hap.1, haj.2]
        show [mkProc (spawn 0)]
            ++ (List.range (s1 :: rest2).length).map (fun m => mkProc (spawn (1 + m)))
          = (List.range (s0 :: s1 :: rest2).length).map (fun m => mkProc (spawn m))
        rw [show ([mkProc (spawn 0)]
            ++ (List.range (s1 :: rest2).length).map (fun m => mkProc (spawn (1 + m))))
          = mkProc (spawn 0)
            :: (List.range (s1 :: rest2).length).map (fun m => mkProc (spawn (1 + m)))
          from rfl]
        rw [range_mkproc_zero spawn (s1 :: rest2).length]
        rfl
      have hNlen : (s0 :: s1 :: rest2).length = rest2.length + 2 := by simp
      have hlast : (s0 :: s1 :: rest2).length - 1 < (s0 :: s1 :: rest2).length := by
        omega
      refine ⟨(addjob st (spawn 0) bg).1, st2, hdp, ?_, ?_, ?_, ?_, ?_⟩
      · rw [hprocfin]
        simp
      · rw [hprocfin]
        exact map_pid_mkproc spawn _
      · rw [hpgid2, hap.1, haj.2]
      · show ((st2.jobs.getD (addjob st (spawn 0) bg).1 zeroJob).proc.getD
            ((st2.jobs.getD (addjob st (spawn 0) bg).1 zeroJob).proc.length - 1)
            zeroProc).exitcode = _
        rw [show (st2.jobs.getD (addjob st (spawn 0) bg).1 zeroJob).proc.length
            = (s0 :: s1 :: rest2).length from by rw [hprocfin]; simp]
      · rw [hprocfin]
        rw [getD_range_map (fun m => mkProc (spawn m)) _ _ zeroProc hlast]
        rfl

theorem do_pipeline_registers_stages_witness :
    ∃ (j : Nat) (st2 : ShellState),
      do_pipeline (fun k => 100 + k) c2St
          (joinPipe [[Token.word "a"], [Token.word "b"], [Token.word "c"]]) false
        = some (j, st2) ∧
      (st2.jobs.getD j zeroJob).proc.length = 3 ∧
      (st2.jobs.getD j zeroJob).proc.map (fun p => p.pid)
        = (List.range 3).map (fun k => 100 + k) ∧
      (st2.jobs.getD j zeroJob).pgid = 100 ∧
      exitcode (st2.jobs.getD j zeroJob)
        = ((st2.jobs.getD j zeroJob).proc.getD 2 zeroProc).exitcode ∧
      ((st2.jobs.getD j zeroJob).proc.getD 2 zeroProc).pid = 102 :=
  do_pipeline_registers_stages (fun k => 100 + k) c2St
    [[Token.word "a"], [Token.word "b"], [Token.word "c"]] false
    (by decide) (by decide) (by decide) (by decide)

end Shell
